import Mathlib

/-!
Verification development for the `oxygenetwork` privacy-proxy server
(`src/server.js`).  The file shallow-embeds the server's core logic:

* the URL token codec (`encryptUrl` / `decryptUrl`, AES-256-CBC with a
  random IV, hex-armoured as `hex(iv):hex(ciphertext)`),
* URL validation (`isValidUrl`) and relative-reference resolution
  (Node's legacy `url.resolve`),
* the HTML document rewriter (`processHtml`),
* the CSS `url(...)` rewriter of the `/asset` route,
* the decode-and-validate front gates of the `/proxy`, `/image` and
  `/asset` routes, and the `/api/search` classifier.

The repository concatenates three near-duplicate server variants.  The
first variant (random-IV `createCipheriv` codec, lines 1-1054) is
embedded in namespace `V1`; the second variant (deterministic
`createCipher` codec, lines 1055-1444) in namespace `V2`.

Modelling conventions:

* JavaScript strings are modelled as their UTF-8 byte sequences,
  `List Nat` with every element `< 256`.  `ub s` turns an ASCII Lean
  string literal into its byte list.
* The AES-256-CBC block permutation (an external OpenSSL primitive,
  keyed by the scrypt-derived process key) is an abstract parameter: a
  `BlockCipher` is any pair of mutually inverse length- and
  range-preserving functions on 16-byte blocks.  CBC chaining, PKCS#7
  padding, hex armour and the `iv:ciphertext` token format are embedded
  concretely, following the semantics of Node's `crypto` module
  (notably its lenient hex decoder, which stops at the first non-hex
  pair).  `idCipher` is a concrete instance used to evaluate the model
  on closed inputs.
* Randomness (`crypto.randomBytes(16)` per `encryptUrl` call) is passed
  in explicitly: `V1.encryptUrl` takes the drawn IV as an argument, and
  the document rewriters take a token-source `tok : Nat → List Nat →
  Option (List Nat)` giving the token produced by the n-th encryption
  call (`none` models a thrown cipher error, which the rewriter's
  per-reference `try/catch` swallows).
-/


/-- UTF-8 encoding of one character (the byte sequence Node produces
for it in `Buffer.from(s, 'utf8')` / `cipher.update(s, 'utf8')`). -/
def utf8C (c : Char) : List Nat :=
  let n := c.toNat
  if n < 128 then [n]
  else if n < 2048 then [192 + n / 64, 128 + n % 64]
  else if n < 65536 then [224 + n / 4096, 128 + (n / 64) % 64, 128 + n % 64]
  else [240 + n / 262144, 128 + (n / 4096) % 64, 128 + (n / 64) % 64, 128 + n % 64]

/-- A Lean string literal as its UTF-8 byte sequence; the uniform model
of JavaScript strings in this file. -/
def ub (s : String) : List Nat :=
  s.data.foldr (fun c a => utf8C c ++ a) []

/-- Byte-list prefix test (model of JavaScript `String.startsWith`). -/
def pfx : List Nat → List Nat → Bool
  | [], _ => true
  | _ :: _, [] => false
  | p :: ps, b :: bs => p == b && pfx ps bs

/-- Splitting a byte list at every occurrence of the byte `d`
(model of JavaScript `String.split`). -/
def splitByte (d : Nat) : List Nat → List (List Nat)
  | [] => [[]]
  | b :: r =>
    match splitByte d r with
    | [] => [[]]
    | s :: ss => if b == d then [] :: s :: ss else (b :: s) :: ss

/-- ASCII lowercasing of a byte list (the URL parser lowercases the
scheme). -/
def lowerBytes (s : List Nat) : List Nat :=
  s.map fun b => if 65 ≤ b ∧ b ≤ 90 then b + 32 else b

/-- Whitespace bytes removed by JavaScript `String.trim` (the ASCII
subset; the exotic Unicode space classes do not occur in the model). -/
def isWsB (b : Nat) : Bool :=
  b == 9 || b == 10 || b == 11 || b == 12 || b == 13 || b == 32

/-- Model of JavaScript `String.trim`. -/
def trimWs (s : List Nat) : List Nat :=
  ((s.dropWhile isWsB).reverse.dropWhile isWsB).reverse

/- ### Hex armour

Node's `Buffer.from(str, 'hex')` (and the identical decoder behind
`decipher.update(str, 'hex')`) decodes two hex digits per byte and
stops at the first pair containing a non-hex character, returning the
bytes decoded so far.  `Buffer.toString('hex')` emits lowercase. -/

def isHexB (b : Nat) : Bool :=
  (48 ≤ b && b ≤ 57) || (97 ≤ b && b ≤ 102) || (65 ≤ b && b ≤ 70)

def hexValB (b : Nat) : Nat :=
  if 48 ≤ b ∧ b ≤ 57 then b - 48
  else if 97 ≤ b ∧ b ≤ 102 then b - 87
  else if 65 ≤ b ∧ b ≤ 70 then b - 55
  else 0

/-- Lowercase hex digit for a nibble. -/
def hexDigitB (n : Nat) : Nat :=
  if n < 10 then 48 + n else 87 + n

/-- Uppercase hex digit (used by `encodeURIComponent`). -/
def hexDigitUpperB (n : Nat) : Nat :=
  if n < 10 then 48 + n else 55 + n

/-- Byte list to lowercase hex bytes — `Buffer.toString('hex')`. -/
def hexEncode : List Nat → List Nat
  | [] => []
  | b :: r => hexDigitB (b / 16) :: hexDigitB (b % 16) :: hexEncode r

/-- Lenient hex decoding — `Buffer.from(str, 'hex')`: decode pairs,
stop at the first invalid pair or trailing lone digit. -/
def hexDecodeLenient : List Nat → List Nat
  | c1 :: c2 :: r =>
    if isHexB c1 && isHexB c2 then
      (hexValB c1 * 16 + hexValB c2) :: hexDecodeLenient r
    else []
  | _ => []

/- ### PKCS#7 padding (OpenSSL's CBC padding, applied by
`createCipheriv('aes-256-cbc', ..)` and checked by `final()`). -/

/-- PKCS#7 pad to a multiple of 16 bytes (always adds 1..16 bytes). -/
def padPkcs7 (u : List Nat) : List Nat :=
  let n := 16 - u.length % 16
  u ++ List.replicate n n

/-- PKCS#7 unpad; `none` models OpenSSL's `bad decrypt` error for an
invalid padding byte or mismatching pad bytes. -/
def unpadPkcs7 (p : List Nat) : Option (List Nat) :=
  match p.getLast? with
  | none => none
  | some n =>
    if n = 0 ∨ 16 < n ∨ p.length < n then none
    else if p.drop (p.length - n) ≠ List.replicate n n then none
    else some (p.take (p.length - n))

/- ### CBC mode over an abstract block permutation

`crypto.createCipheriv('aes-256-cbc', key, iv)` is CBC chaining over
the AES-256 block permutation under the scrypt-derived process key.
The block permutation itself is an external primitive; it is abstracted
as any pair of mutually inverse functions on valid 16-byte blocks. -/

/-- A block of 16 bytes. -/
def ValidBlock (b : List Nat) : Prop := b.length = 16 ∧ ∀ x ∈ b, x < 256

instance : DecidablePred ValidBlock := fun b => by
  unfold ValidBlock; infer_instance

/-- Abstract keyed block permutation (AES-256 under the process key in
the real system). -/
structure BlockCipher where
  enc : List Nat → List Nat
  dec : List Nat → List Nat
  dec_enc : ∀ b, ValidBlock b → dec (enc b) = b
  enc_valid : ∀ b, ValidBlock b → ValidBlock (enc b)

/-- Concrete cipher instance used to evaluate the model on closed
inputs (the theorems hold for every `BlockCipher`). -/
def idCipher : BlockCipher where
  enc := id
  dec := id
  dec_enc := fun _ _ => rfl
  enc_valid := fun _ h => h

/-- Bytewise XOR of two blocks. -/
def xorBlock (a b : List Nat) : List Nat :=
  List.zipWith (fun x y => x ^^^ y) a b

/-- Fuel-driven block splitter (structural recursion so that the
kernel can evaluate it on closed inputs). -/
def chunks16F : Nat → List Nat → List (List Nat)
  | 0, _ => []
  | _ + 1, [] => []
  | f + 1, b :: r => (b :: r).take 16 :: chunks16F f ((b :: r).drop 16)

/-- Split a byte list into blocks of 16. -/
def chunks16 (l : List Nat) : List (List Nat) :=
  chunks16F l.length l

/-- CBC encryption of a block list with chaining value `prev`. -/
def cbcEncBlocks (E : BlockCipher) (prev : List Nat) : List (List Nat) → List (List Nat)
  | [] => []
  | b :: bs =>
    let c := E.enc (xorBlock b prev)
    c :: cbcEncBlocks E c bs

/-- CBC decryption of a block list with chaining value `prev`. -/
def cbcDecBlocks (E : BlockCipher) (prev : List Nat) : List (List Nat) → List (List Nat)
  | [] => []
  | c :: cs => xorBlock (E.dec c) prev :: cbcDecBlocks E c cs

/-- Byte-level CBC encryption (the body of `cipher.update + final`). -/
def cbcEncrypt (E : BlockCipher) (iv p : List Nat) : List Nat :=
  (cbcEncBlocks E iv (chunks16 p)).flatten

/-- Byte-level CBC decryption (the body of `decipher.update + final`,
before the padding check). -/
def cbcDecrypt (E : BlockCipher) (iv c : List Nat) : List Nat :=
  (cbcDecBlocks E iv (chunks16 c)).flatten

namespace V1

/-- Model of the first variant's `encryptUrl` (`src/server.js` lines
113-126): AES-256-CBC under the scrypt-derived key with the freshly
drawn 16-byte IV `iv`, token `hex(iv) ++ ":" ++ hex(ciphertext)`.
The plaintext URL string appears as its UTF-8 bytes `u`. -/
def encryptUrl (E : BlockCipher) (iv u : List Nat) : List Nat :=
  hexEncode iv ++ 58 :: hexEncode (cbcEncrypt E iv (padPkcs7 u))

/-- Model of the first variant's `decryptUrl` (lines 128-143): split on
the first `:`; hex-decode the IV part (Node's lenient decoder);
`createDecipheriv` throws on an IV that is not 16 bytes, `final()`
throws when the ciphertext is empty or not block-aligned or the padding
is invalid; the surrounding `try/catch` turns every throw into `null`,
modelled as `none`. -/
def decryptUrl (E : BlockCipher) (s : List Nat) : Option (List Nat) :=
  let ivStr := s.takeWhile (fun b => b != 58)
  let rest := (s.dropWhile (fun b => b != 58)).drop 1
  let iv := hexDecodeLenient ivStr
  if iv.length ≠ 16 then none
  else
    let ct := hexDecodeLenient rest
    if ct.length = 0 ∨ ct.length % 16 ≠ 0 then none
    else unpadPkcs7 (cbcDecrypt E iv ct)

end V1

namespace V2

/-- Model of the second variant's `encryptUrl` (`src/server.js` lines
1122-1127): `crypto.createCipher('aes-256-cbc', SECRET_KEY)` derives
key and IV deterministically from the password (`EVP_BytesToKey`), so
every call encrypts with the same process-constant IV `iv0`; the token
is the bare hex ciphertext, with no IV prefix and no colon. -/
def encryptUrl (E : BlockCipher) (iv0 u : List Nat) : List Nat :=
  hexEncode (cbcEncrypt E iv0 (padPkcs7 u))

/-- Model of the second variant's `decryptUrl` (lines 1129-1138): no
colon split; hex-decode the whole token, decrypt, unpad; every throw
is caught and returned as `null` (`none`). -/
def decryptUrl (E : BlockCipher) (iv0 s : List Nat) : Option (List Nat) :=
  let ct := hexDecodeLenient s
  if ct.length = 0 ∨ ct.length % 16 ≠ 0 then none
  else unpadPkcs7 (cbcDecrypt E iv0 ct)

end V2

/- ### URL model

`new URL(..)` and `url.resolve(..)` are external library routines
(the WHATWG URL parser and Node's legacy url module).  They are
modelled here on the subset of URL shapes the server manipulates. -/

def isAlphaB (b : Nat) : Bool :=
  (65 ≤ b && b ≤ 90) || (97 ≤ b && b ≤ 122)

def isDigitB (b : Nat) : Bool :=
  48 ≤ b && b ≤ 57

/-- Bytes allowed in a URL scheme after the first (alphabetic) one. -/
def isSchemeB (b : Nat) : Bool :=
  isAlphaB b || isDigitB b || b == 43 || b == 45 || b == 46

/-- Modelled from the WHATWG URL parser: split `scheme ":" rest`,
requiring the scheme to start with a letter; the scheme is
lowercased. -/
def parseScheme (s : List Nat) : Option (List Nat × List Nat) :=
  match s with
  | [] => none
  | c :: _ =>
    if isAlphaB c then
      match s.dropWhile isSchemeB with
      | 58 :: r => some (lowerBytes (s.takeWhile isSchemeB), r)
      | _ => none
    else none

/-- The WHATWG special schemes that require an authority (the model
omits `file`, which the server never sees). -/
def specialSchemes : List (List Nat) :=
  [ub "http", ub "https", ub "ws", ub "wss", ub "ftp"]

/-- Modelled from the WHATWG URL parser (`new URL(s)`): returns the
scheme when parsing succeeds, `none` when it throws.  Simplified to
require an explicit `//` authority with a nonempty host for special
schemes; non-special schemes (such as `mailto:`) accept any
remainder. -/
def urlProtocol (s : List Nat) : Option (List Nat) :=
  match parseScheme s with
  | none => none
  | some (sch, rest) =>
    if specialSchemes.contains sch then
      if pfx [47, 47] rest then
        let host := (rest.drop 2).takeWhile fun b => b != 47 && b != 63 && b != 35
        if host = [] then none else some sch
      else none
    else some sch

namespace V1

/-- Model of the first variant's `isValidUrl` (lines 145-152):
`new URL(string)` must succeed and the protocol must be `http:` or
`https:`. -/
def isValidUrl (s : List Nat) : Bool :=
  match urlProtocol s with
  | some sch => sch == ub "http" || sch == ub "https"
  | none => false

end V1

namespace V2

/-- Model of the second variant's `isValidUrl` (lines 1140-1147):
only `new URL(string)` success is required — no protocol check. -/
def isValidUrl (s : List Nat) : Bool :=
  (urlProtocol s).isSome

end V2

/- ### Relative reference resolution (legacy `url.resolve`) -/

/-- One step of RFC 3986 dot-segment removal, clamped at the root. -/
def dotSegsStep (stack : List (List Nat)) (seg : List Nat) : List (List Nat) :=
  if seg == ub ".." then (if stack.length ≤ 1 then stack else stack.dropLast)
  else if seg == ub "." then stack
  else stack ++ [seg]

/-- Dot-segment removal on a path, as performed by legacy URL
formatting. -/
def removeDotSegments (p : List Nat) : List Nat :=
  List.intercalate [47] ((splitByte 47 p).foldl dotSegsStep [])

/-- The path up to and including its last `/` (the directory part);
`/` when the path has no slash. -/
def dirName (path : List Nat) : List Nat :=
  match path.reverse.dropWhile (fun b => b != 47) with
  | [] => [47]
  | r => r.reverse

/-- Model of JavaScript `s.substring(0, s.lastIndexOf('/'))` (used by
the CSS rewriter to truncate the stylesheet URL to its directory);
yields the empty string when there is no slash, matching
`substring(0, -1)`. -/
def substrToLastSlash (s : List Nat) : List Nat :=
  ((s.reverse.dropWhile (fun b => b != 47)).drop 1).reverse

/-- Modelled from Node's legacy `url.resolve(base, rel)` (external
library): a reference with its own scheme is returned as is;
protocol-relative, absolute-path, empty, fragment and query references
are handled against the parsed base; otherwise the reference is merged
onto the base directory and dot segments are removed. -/
def urlResolve (base rel : List Nat) : List Nat :=
  match parseScheme rel with
  | some _ => rel
  | none =>
    match parseScheme base with
    | none => rel
    | some (sch, brest) =>
      if pfx [47, 47] brest then
        let afterAuth := brest.drop 2
        let host := afterAuth.takeWhile fun b => b != 47 && b != 63 && b != 35
        let path := afterAuth.dropWhile fun b => b != 47 && b != 63 && b != 35
        let originB := sch ++ [58, 47, 47] ++ host
        if pfx [47, 47] rel then sch ++ 58 :: rel
        else if pfx [47] rel then originB ++ removeDotSegments rel
        else if rel = [] then base
        else if pfx [35] rel then base.takeWhile (fun b => b != 35) ++ rel
        else if pfx [63] rel then originB ++ path.takeWhile (fun b => b != 63) ++ rel
        else originB ++
          removeDotSegments (dirName (path.takeWhile fun b => b != 63 && b != 35) ++ rel)
      else rel

/- ### HTML document model

`cheerio.load` / `$.html()` (an external HTML parser/serializer) are
abstracted: a parsed document is a list of reference-bearing elements,
each a tag name with an attribute list; nesting is immaterial to the
rewriting logic, which only selects by tag and attribute.  Inline
text/script payloads carry no references and are elided. -/

structure Element where
  tag : List Nat
  attrs : List (List Nat × List Nat)
  deriving DecidableEq, Repr

/-- Model of cheerio `$(elem).attr(name)`. -/
def getAttr (e : Element) (n : List Nat) : Option (List Nat) :=
  (e.attrs.find? (fun p => p.fst == n)).map Prod.snd

/-- Model of cheerio `$(elem).attr(name, v)`. -/
def setAttr (e : Element) (n v : List Nat) : Element :=
  { e with attrs := e.attrs.map fun p => if p.fst == n then (n, v) else p }

namespace V1

/-- One element of the `$('a[href]').each` pass of the first variant's
`processHtml` (lines 163-176): skip `javascript:`, `#` and `mailto:`
prefixes (and the falsy empty string); resolve, validate, encrypt and
rewrite to `/proxy/{token}`.  `tok k` is the token produced by the
`k`-th `encryptUrl` call (`none` when it throws; the surrounding
`catch` then leaves the element untouched). -/
def anchorStep (tok : Nat → List Nat → Option (List Nat)) (base : List Nat)
    (e : Element) (k : Nat) : Element × Nat :=
  if e.tag == ub "a" then
    match getAttr e (ub "href") with
    | some href =>
      if !href.isEmpty && !pfx (ub "javascript:") href && !pfx (ub "#") href
          && !pfx (ub "mailto:") href then
        let absoluteUrl := urlResolve base href
        if isValidUrl absoluteUrl then
          match tok k absoluteUrl with
          | some t => (setAttr e (ub "href") (ub "/proxy/" ++ t), k + 1)
          | none => (e, k + 1)
        else (e, k)
      else (e, k)
    | none => (e, k)
  else (e, k)

/-- The `$('form[action]').each` pass (lines 179-192): skip `#` and
empty actions; rewrite to `/proxy/{token}`. -/
def formStep (tok : Nat → List Nat → Option (List Nat)) (base : List Nat)
    (e : Element) (k : Nat) : Element × Nat :=
  if e.tag == ub "form" then
    match getAttr e (ub "action") with
    | some action =>
      if !action.isEmpty && !pfx (ub "#") action then
        let absoluteUrl := urlResolve base action
        if isValidUrl absoluteUrl then
          match tok k absoluteUrl with
          | some t => (setAttr e (ub "action") (ub "/proxy/" ++ t), k + 1)
          | none => (e, k + 1)
        else (e, k)
      else (e, k)
    | none => (e, k)
  else (e, k)

/-- The `$('img[src]').each` pass (lines 195-208): skip `data:` and
empty sources; rewrite to `/image/{token}`. -/
def imgStep (tok : Nat → List Nat → Option (List Nat)) (base : List Nat)
    (e : Element) (k : Nat) : Element × Nat :=
  if e.tag == ub "img" then
    match getAttr e (ub "src") with
    | some src =>
      if !src.isEmpty && !pfx (ub "data:") src then
        let absoluteUrl := urlResolve base src
        if isValidUrl absoluteUrl then
          match tok k absoluteUrl with
          | some t => (setAttr e (ub "src") (ub "/image/" ++ t), k + 1)
          | none => (e, k + 1)
        else (e, k)
      else (e, k)
    | none => (e, k)
  else (e, k)

end V1

/-- A cheerio `.each` traversal threading the count of `encryptUrl`
calls (the supply of fresh random IVs) through the document. -/
def applyPass (step : Element → Nat → Element × Nat) :
    List Element → Nat → List Element × Nat
  | [], k => ([], k)
  | e :: es, k =>
    let p := step e k
    let q := applyPass step es p.2
    (p.1 :: q.1, q.2)

namespace V1

/-- The `proxy-interface` overlay div injected by
`$('body').prepend` (lines 211-276); its styling markup carries no
references and is elided. -/
def overlayDiv : Element :=
  { tag := ub "div", attrs := [(ub "id", ub "proxy-interface")] }

/-- The `hover-trigger` div injected together with the overlay. -/
def hoverDiv : Element :=
  { tag := ub "div", attrs := [(ub "id", ub "hover-trigger")] }

/-- The style element injected by `$('head').append` (lines 279-286). -/
def injectedStyle : Element :=
  { tag := ub "style", attrs := [] }

/-- The behaviour script injected by `$('head').append` (lines
287-421); its inline JavaScript payload is client-side behaviour and
is elided. -/
def injectedScript : Element :=
  { tag := ub "script", attrs := [] }

/-- The document-level body of the first variant's `processHtml`
(lines 155-428): the three rewrite passes in source order, then the UI
injection (body-prepends and head-appends flattened to the front and
back of the element list). -/
def processHtmlDoc (tok : Nat → List Nat → Option (List Nat)) (base : List Nat)
    (d : List Element) (k : Nat) : List Element :=
  let p1 := applyPass (anchorStep tok base) d k
  let p2 := applyPass (formStep tok base) p1.1 p1.2
  let p3 := applyPass (imgStep tok base) p2.1 p2.2
  overlayDiv :: hoverDiv :: p3.1 ++ [injectedStyle, injectedScript]

/-- The first variant's `processHtml`, including its outer `try/catch`:
`parse` and `render` stand for `cheerio.load` and `$.html()`; when
parsing throws (`parse` returns `none`) the original input is returned
unmodified (line 426). -/
def processHtml (parse : List Nat → Option (List Element))
    (render : List Element → List Nat)
    (tok : Nat → List Nat → Option (List Nat))
    (html base : List Nat) : List Nat :=
  match parse html with
  | none => html
  | some d => render (processHtmlDoc tok base d 0)

end V1

namespace V2

/-- One element of the second variant's `$('a[href]').each` pass
(lines 1153-1162): skips only `javascript:` and `#` (no `mailto:`
check), and its `isValidUrl` accepts any parseable URL.  Encryption is
the deterministic `createCipher` codec, so no call counter is
needed. -/
def anchorStep (E : BlockCipher) (iv0 base : List Nat) (e : Element) : Element :=
  if e.tag == ub "a" then
    match getAttr e (ub "href") with
    | some href =>
      if !href.isEmpty && !pfx (ub "javascript:") href && !pfx (ub "#") href then
        let absoluteUrl := urlResolve base href
        if isValidUrl absoluteUrl then
          setAttr e (ub "href") (ub "/proxy/" ++ encryptUrl E iv0 absoluteUrl)
        else e
      else e
    | none => e
  else e

/-- The `$('img[src]').each` pass (lines 1165-1174): only a truthiness
check on `src`. -/
def imgStep (E : BlockCipher) (iv0 base : List Nat) (e : Element) : Element :=
  if e.tag == ub "img" then
    match getAttr e (ub "src") with
    | some src =>
      if !src.isEmpty then
        let absoluteUrl := urlResolve base src
        if isValidUrl absoluteUrl then
          setAttr e (ub "src") (ub "/image/" ++ encryptUrl E iv0 absoluteUrl)
        else e
      else e
    | none => e
  else e

/-- The `$('link[rel="stylesheet"]').each` pass (lines 1177-1186):
rewrite the stylesheet href to `/asset/{token}`. -/
def linkStep (E : BlockCipher) (iv0 base : List Nat) (e : Element) : Element :=
  if e.tag == ub "link" && getAttr e (ub "rel") == some (ub "stylesheet") then
    match getAttr e (ub "href") with
    | some href =>
      if !href.isEmpty then
        let absoluteUrl := urlResolve base href
        if isValidUrl absoluteUrl then
          setAttr e (ub "href") (ub "/asset/" ++ encryptUrl E iv0 absoluteUrl)
        else e
      else e
    | none => e
  else e

/-- The `$('script[src]').each` pass (lines 1189-1198): rewrite the
script src to `/asset/{token}`. -/
def scriptStep (E : BlockCipher) (iv0 base : List Nat) (e : Element) : Element :=
  if e.tag == ub "script" && (getAttr e (ub "src")).isSome then
    match getAttr e (ub "src") with
    | some src =>
      if !src.isEmpty then
        let absoluteUrl := urlResolve base src
        if isValidUrl absoluteUrl then
          setAttr e (ub "src") (ub "/asset/" ++ encryptUrl E iv0 absoluteUrl)
        else e
      else e
    | none => e
  else e

/-- The proxy behaviour script injected by `$('head').prepend` (lines
1201-1243); inline payload elided. -/
def injectedScript : Element :=
  { tag := ub "script", attrs := [] }

/-- The second variant's `processHtml` (lines 1149-1246) at document
level: the four rewrite passes in source order, then the head
injection (flattened to the front of the element list). -/
def processHtml (E : BlockCipher) (iv0 base : List Nat) (d : List Element) :
    List Element :=
  injectedScript ::
    (((d.map (anchorStep E iv0 base)).map (imgStep E iv0 base)).map
      (linkStep E iv0 base)).map (scriptStep E iv0 base)

end V2

/- ### Route front gates

Only the decode-and-validate prefix of each route handler is embedded;
`fetchUpstream u` records that the handler proceeds to issue the
outbound request for `u` (the fetch itself, an external suspension
point, is outside the model). -/

inductive RBody where
  | text : List Nat → RBody
  | pixelPng : RBody
  deriving DecidableEq, Repr

inductive RouteOutcome where
  | respond : Nat → RBody → RouteOutcome
  | fetchUpstream : List Nat → RouteOutcome
  deriving DecidableEq, Repr

namespace V1

/-- Front gate of `app.all('/proxy/:encryptedUrl')` (lines 770-778):
decode failure, the falsy empty string, or an invalid URL respond with
HTTP 400 `Invalid URL`; otherwise the destination is fetched. -/
def proxyRoute (E : BlockCipher) (t : List Nat) : RouteOutcome :=
  match decryptUrl E t with
  | none => .respond 400 (.text (ub "Invalid URL"))
  | some u =>
    if u.isEmpty || !isValidUrl u then .respond 400 (.text (ub "Invalid URL"))
    else .fetchUpstream u

/-- Front gate of `app.get('/image/:encryptedUrl')` (lines 889-932):
any failure (including decode failure, which throws into the handler's
`catch`) responds with the 1x1 transparent placeholder pixel. -/
def imageRoute (E : BlockCipher) (t : List Nat) : RouteOutcome :=
  match decryptUrl E t with
  | none => .respond 200 .pixelPng
  | some u =>
    if u.isEmpty || !isValidUrl u then .respond 200 .pixelPng
    else .fetchUpstream u

/-- Front gate of `app.get('/asset/:encryptedUrl')` (lines 935-992):
any failure responds with an empty-body 404. -/
def assetRoute (E : BlockCipher) (t : List Nat) : RouteOutcome :=
  match decryptUrl E t with
  | none => .respond 404 (.text [])
  | some u =>
    if u.isEmpty || !isValidUrl u then .respond 404 (.text [])
    else .fetchUpstream u

end V1

/- ### The `/api/search` classifier -/

/-- Bytes `encodeURIComponent` leaves unescaped:
`A-Z a-z 0-9 - _ . ! ~ * ' ( )`. -/
def isUnreservedB (b : Nat) : Bool :=
  isAlphaB b || isDigitB b || b == 45 || b == 95 || b == 46 || b == 33 ||
    b == 126 || b == 42 || b == 39 || b == 40 || b == 41

/-- Model of JavaScript `encodeURIComponent` at the byte level
(uppercase percent escapes). -/
def encodeUriComponent (u : List Nat) : List Nat :=
  u.foldr
    (fun b a =>
      (if isUnreservedB b then [b]
       else [37, hexDigitUpperB (b / 16), hexDigitUpperB (b % 16)]) ++ a)
    []

inductive ApiResult where
  | badRequest : ApiResult
  | ok : List Nat → ApiResult
  deriving DecidableEq, Repr

namespace V1

/-- The URL classification of `app.post('/api/search')` (lines
745-754), applied to the trimmed query: absolute `http(s)://` input
unchanged; dotted, space-free input promoted to `https://` (keeping a
leading `www.`) or `https://www.` otherwise; anything else becomes a
Google search URL with the query percent-encoded. -/
def searchUrlFor (q : List Nat) : List Nat :=
  if pfx (ub "http://") q || pfx (ub "https://") q then q
  else if q.contains 46 && !q.contains 32 then
    (if pfx (ub "www.") q then ub "https://" ++ q else ub "https://www." ++ q)
  else ub "https://www.google.com/search?q=" ++ encodeUriComponent q

/-- `app.post('/api/search')` (lines 732-767): trim, reject empty,
classify, validate, encrypt, respond `{url: "/proxy/" + token}`.
`iv` is the IV drawn by the single `encryptUrl` call. -/
def searchRoute (E : BlockCipher) (iv q : List Nat) : ApiResult :=
  let t := trimWs q
  if t.isEmpty then .badRequest
  else
    let searchUrl := searchUrlFor t
    if !isValidUrl searchUrl then .badRequest
    else .ok (ub "/proxy/" ++ encryptUrl E iv searchUrl)

end V1

namespace V2

/-- The second variant's `app.post('/api/search')` (lines 1395-1415):
no trim, no `www.` promotion (bare domains get only `https://`), no
final validity check. -/
def searchRoute (E : BlockCipher) (iv0 q : List Nat) : ApiResult :=
  if q.isEmpty then .badRequest
  else
    let searchUrl :=
      if pfx (ub "http://") q || pfx (ub "https://") q then q
      else if q.contains 46 && !q.contains 32 then ub "https://" ++ q
      else ub "https://www.google.com/search?q=" ++ encodeUriComponent q
    .ok (ub "/proxy/" ++ encryptUrl E iv0 searchUrl)

end V2

/- ### The CSS `url(...)` rewriter of the `/asset` route -/

/-- Bytes admitted by the capture class `[^'")]+` of the CSS regex. -/
def cssAllowedB (b : Nat) : Bool :=
  !(b == 39 || b == 34 || b == 41)

/-- Matching the regex `url\(['"]?(?!http|data:)([^'")]+)['"]?\)` at
the head of `s`: returns the total match length and the captured inner
reference.  The optional quotes and the greedy capture make the JS
backtracking behaviour deterministic, which this function reproduces:
a leading quote must be consumed, the lookahead then applies, the
capture is maximal, and the match closes on `)` or quote-then-`)`. -/
def cssMatchClose (q1 : Nat) (cap : List Nat) : List Nat → Option (Nat × List Nat)
  | [] => none
  | r1 :: rest2 =>
    if r1 == 41 then some (4 + q1 + cap.length + 1, cap)
    else if r1 == 39 || r1 == 34 then
      match rest2 with
      | 41 :: _ => some (4 + q1 + cap.length + 2, cap)
      | _ => none
    else none

def cssMatchAt (s : List Nat) : Option (Nat × List Nat) :=
  if pfx (ub "url(") s then
    let s4 := s.drop 4
    let q1 : Nat := if s4.head? == some 39 || s4.head? == some 34 then 1 else 0
    let s5 := s4.drop q1
    if pfx (ub "http") s5 || pfx (ub "data:") s5 then none
    else
      let cap := s5.takeWhile cssAllowedB
      if cap.isEmpty then none
      else cssMatchClose q1 cap (s5.dropWhile cssAllowedB)
  else none

/-- The global-replace scan of
`content.replace(/url\(['"]?(?!http|data:)([^'")]+)['"]?\)/g, ..)`
(lines 970-979), fuel-driven for structural recursion.  At each match
the callback resolves the capture against the stylesheet directory
(`targetUrl` truncated to its last `/`, plus `/`) and rewrites to
`url('/asset/{token}')`; a token-source failure (the callback's
`catch`) leaves the matched text verbatim.  `k` counts `encryptUrl`
calls. -/
def cssScanF (tok : Nat → List Nat → Option (List Nat)) (target : List Nat) :
    Nat → Nat → List Nat → List Nat
  | 0, _, s => s
  | _ + 1, _, [] => []
  | f + 1, k, c :: r =>
    match cssMatchAt (c :: r) with
    | some (len, cap) =>
      (match tok k (urlResolve (substrToLastSlash target ++ [47]) cap) with
        | some t => ub "url(" ++ 39 :: (ub "/asset/" ++ t ++ [39, 41])
        | none => (c :: r).take len) ++
      cssScanF tok target f (k + 1) ((c :: r).drop len)
    | none => c :: cssScanF tok target f k r

/-- The CSS branch of the `/asset` handler (lines 967-980). -/
def cssProcess (tok : Nat → List Nat → Option (List Nat))
    (target css : List Nat) : List Nat :=
  cssScanF tok target css.length 0 css

/- ### Claim theorems -/

/- ### Lemmas about the CSS scanner -/

/-- Does the text contain an occurrence of `url(` (where a CSS regex
match could start)? -/
def hasUrlOpen : List Nat → Bool
  | [] => false
  | c :: r => pfx (ub "url(") (c :: r) || hasUrlOpen r

/-- The scanner at its canonical fuel (enough to consume the input);
`cssProcess tok target css` is `cssScan tok target 0 css`. -/
def cssScan (tok : Nat → List Nat → Option (List Nat)) (target : List Nat)
    (k : Nat) (s : List Nat) : List Nat :=
  cssScanF tok target s.length k s

/-! ### Theorems -/

/-- Unicode scalar values are below 0x110000. -/
theorem char_toNat_lt (c : Char) : c.toNat < 1114112 := by
  rcases c.valid with h | ⟨_, h⟩ <;>
    simp [Char.toNat] at h ⊢ <;> omega

/-- Every UTF-8 byte is below 256. -/
theorem utf8C_lt (c : Char) : ∀ b ∈ utf8C c, b < 256 := by
  have h := char_toNat_lt c
  intro b hb
  simp only [utf8C] at hb
  split at hb <;> [skip; split at hb] <;> [skip; skip; split at hb] <;>
    simp only [List.mem_cons, List.mem_singleton, List.not_mem_nil, or_false] at hb <;>
    rcases hb with hb | hb | hb | hb <;> omega

/-- Bytes of an embedded string literal are below 256. -/
theorem ub_lt (s : String) : ∀ b ∈ ub s, b < 256 := by
  unfold ub
  induction s.data with
  | nil => simp
  | cons c cs ih =>
    intro b hb
    simp only [List.foldr_cons, List.mem_append] at hb
    rcases hb with hb | hb
    · exact utf8C_lt c b hb
    · exact ih b hb

theorem pfx_append (p a : List Nat) : pfx p (p ++ a) = true := by
  induction p with
  | nil => rfl
  | cons x xs ih => simp [pfx, ih]

/-- If a pattern is a prefix of `a ++ b` and fits inside `a`, it is a
prefix of `a`. -/
theorem pfx_of_pfx_append {p a : List Nat} (b : List Nat)
    (h : pfx p (a ++ b) = true) (hl : p.length ≤ a.length) :
    pfx p a = true := by
  induction p generalizing a with
  | nil => rfl
  | cons x xs ih =>
    cases a with
    | nil => simp at hl
    | cons y ys =>
      simp only [List.cons_append, pfx, Bool.and_eq_true, beq_iff_eq] at h ⊢
      exact ⟨h.1, ih h.2 (by simpa using hl)⟩

/-- If a pattern overruns `a` into `c :: t`, then `c` occurs in the
pattern. -/
theorem mem_of_pfx_overrun {p a : List Nat} {c : Nat} {t : List Nat}
    (h : pfx p (a ++ c :: t) = true) (hl : a.length < p.length) :
    c ∈ p := by
  induction p generalizing a with
  | nil => simp at hl
  | cons x xs ih =>
    cases a with
    | nil =>
      simp only [List.nil_append, pfx, Bool.and_eq_true, beq_iff_eq] at h
      simp [h.1.symm]
    | cons y ys =>
      simp only [List.cons_append, pfx, Bool.and_eq_true] at h
      exact List.mem_cons_of_mem x (ih h.2 (by simpa using hl))

theorem hexDigitB_isHex {n : Nat} (h : n < 16) : isHexB (hexDigitB n) = true := by
  unfold hexDigitB isHexB
  split <;> simp <;> omega

theorem hexValB_hexDigitB {n : Nat} (h : n < 16) : hexValB (hexDigitB n) = n := by
  unfold hexDigitB hexValB
  split <;> [skip; split] <;> first | omega | (split <;> [omega; (split <;> omega)])

theorem hexDigitB_ne_colon (n : Nat) (h : n < 16) : hexDigitB n ≠ 58 := by
  unfold hexDigitB; split <;> omega

theorem hexDigitB_lt (n : Nat) (h : n < 16) : hexDigitB n < 256 := by
  unfold hexDigitB; split <;> omega

/-- Hex round trip: lenient decoding inverts encoding on byte lists. -/
theorem hexDecode_hexEncode {bs : List Nat} (h : ∀ b ∈ bs, b < 256) :
    hexDecodeLenient (hexEncode bs) = bs := by
  induction bs with
  | nil => rfl
  | cons b r ih =>
    have hb : b < 256 := h b (by simp)
    have h1 : b / 16 < 16 := by omega
    have h2 : b % 16 < 16 := by omega
    simp only [hexEncode, hexDecodeLenient, hexDigitB_isHex h1, hexDigitB_isHex h2,
      Bool.and_self, if_true]
    rw [hexValB_hexDigitB h1, hexValB_hexDigitB h2,
      ih (fun x hx => h x (by simp [hx]))]
    congr 1
    omega

/-- Lenient decoding of an encoded list with an arbitrary suffix:
the well-formed pairs are decoded, then decoding continues into the
suffix. -/
theorem hexDecode_hexEncode_append {bs : List Nat} (j : List Nat)
    (h : ∀ b ∈ bs, b < 256) :
    hexDecodeLenient (hexEncode bs ++ j) = bs ++ hexDecodeLenient j := by
  induction bs with
  | nil => rfl
  | cons b r ih =>
    have hb : b < 256 := h b (by simp)
    have h1 : b / 16 < 16 := by omega
    have h2 : b % 16 < 16 := by omega
    simp only [hexEncode, List.cons_append, hexDecodeLenient,
      hexDigitB_isHex h1, hexDigitB_isHex h2, Bool.and_self, if_true,
      List.append_eq]
    rw [hexValB_hexDigitB h1, hexValB_hexDigitB h2,
      ih (fun x hx => h x (by simp [hx]))]
    simp only [List.cons_append, List.cons.injEq, and_true]
    omega

theorem hexEncode_lt {bs : List Nat} (h : ∀ b ∈ bs, b < 256) :
    ∀ c ∈ hexEncode bs, c < 256 := by
  induction bs with
  | nil => simp [hexEncode]
  | cons b r ih =>
    have hb : b < 256 := h b (by simp)
    intro c hc
    simp only [hexEncode, List.mem_cons] at hc
    rcases hc with hc | hc | hc
    · exact hc ▸ hexDigitB_lt _ (by omega)
    · exact hc ▸ hexDigitB_lt _ (by omega)
    · exact ih (fun x hx => h x (by simp [hx])) c hc

theorem hexEncode_ne_colon {bs : List Nat} (h : ∀ b ∈ bs, b < 256) :
    ∀ c ∈ hexEncode bs, c ≠ 58 := by
  induction bs with
  | nil => simp [hexEncode]
  | cons b r ih =>
    have hb : b < 256 := h b (by simp)
    intro c hc
    simp only [hexEncode, List.mem_cons] at hc
    rcases hc with hc | hc | hc
    · exact hc ▸ hexDigitB_ne_colon _ (by omega)
    · exact hc ▸ hexDigitB_ne_colon _ (by omega)
    · exact ih (fun x hx => h x (by simp [hx])) c hc

theorem hexEncode_length (bs : List Nat) :
    (hexEncode bs).length = 2 * bs.length := by
  induction bs with
  | nil => rfl
  | cons b r ih => simp [hexEncode, ih]; omega

theorem padPkcs7_length_mod (u : List Nat) : (padPkcs7 u).length % 16 = 0 := by
  simp only [padPkcs7, List.length_append, List.length_replicate]
  omega

theorem padPkcs7_length_pos (u : List Nat) : 0 < (padPkcs7 u).length := by
  simp only [padPkcs7, List.length_append, List.length_replicate]
  omega

theorem padPkcs7_lt {u : List Nat} (h : ∀ b ∈ u, b < 256) :
    ∀ b ∈ padPkcs7 u, b < 256 := by
  intro b hb
  simp only [padPkcs7, List.mem_append, List.mem_replicate] at hb
  rcases hb with hb | ⟨_, hb⟩
  · exact h b hb
  · omega

/-- Unpadding inverts padding. -/
theorem unpad_pad (u : List Nat) : unpadPkcs7 (padPkcs7 u) = some u := by
  have hn : 1 ≤ 16 - u.length % 16 ∧ 16 - u.length % 16 ≤ 16 := by omega
  set n := 16 - u.length % 16 with hn_def
  have hrep : (List.replicate n n) ≠ [] := by
    simp [List.replicate_eq_nil_iff]
    omega
  have hlast : (padPkcs7 u).getLast? = some n := by
    simp only [padPkcs7, ← hn_def]
    rw [List.getLast?_append_of_ne_nil u hrep]
    rcases Nat.exists_eq_succ_of_ne_zero (show n ≠ 0 by omega) with ⟨m, hm⟩
    rw [hm]
    simp [List.replicate_succ']
  have hlen : (padPkcs7 u).length = u.length + n := by
    simp [padPkcs7, ← hn_def]
  unfold unpadPkcs7
  rw [hlast]
  dsimp only
  have h1 : ¬(n = 0 ∨ 16 < n ∨ (padPkcs7 u).length < n) := by
    rw [hlen]; omega
  rw [if_neg h1]
  have hppad : padPkcs7 u = u ++ List.replicate n n := by
    simp [padPkcs7, ← hn_def]
  have hsub : (padPkcs7 u).length - n = u.length := by rw [hlen]; omega
  have hdrop : (padPkcs7 u).drop ((padPkcs7 u).length - n) = List.replicate n n := by
    rw [hsub, hppad, List.drop_left]
  rw [if_neg (by simp [hdrop])]
  have htake : (padPkcs7 u).take ((padPkcs7 u).length - n) = u := by
    rw [hsub, hppad, List.take_left]
  rw [htake]

theorem xorBlock_valid {a b : List Nat} (ha : ValidBlock a) (hb : ValidBlock b) :
    ValidBlock (xorBlock a b) := by
  constructor
  · simp [xorBlock, ha.1, hb.1]
  · intro x hx
    simp only [xorBlock] at hx
    rcases List.mem_iff_get.1 hx with ⟨i, hi⟩
    rw [List.get_zipWith] at hi
    have h1 : a.get ⟨i, by have := i.isLt; simp [ha.1, hb.1] at this ⊢; omega⟩ < 256 :=
      ha.2 _ (List.get_mem _ _ _)
    have h2 : b.get ⟨i, by have := i.isLt; simp [ha.1, hb.1] at this ⊢; omega⟩ < 256 :=
      hb.2 _ (List.get_mem _ _ _)
    subst hi
    have hxor := Nat.xor_lt_two_pow (show _ < 2 ^ 8 by simpa using h1)
      (show _ < 2 ^ 8 by simpa using h2)
    simpa using hxor

theorem xorBlock_cancel {a b : List Nat} (hlen : a.length = b.length) :
    xorBlock (xorBlock a b) b = a := by
  induction a generalizing b with
  | nil => cases b <;> simp [xorBlock]
  | cons x xs ih =>
    cases b with
    | nil => simp at hlen
    | cons y ys =>
      simp only [xorBlock, List.zipWith_cons_cons] at *
      rw [Nat.xor_assoc, Nat.xor_self, Nat.xor_zero]
      exact congrArg _ (ih (by simpa using hlen))

theorem chunks16F_fuel : ∀ (f : Nat) (l : List Nat), l.length ≤ f →
    chunks16F f l = chunks16F l.length l := by
  intro f
  induction f using Nat.strong_induction_on with
  | _ f ih =>
    intro l hl
    cases f with
    | zero =>
      have hnil : l = [] := List.length_eq_zero.1 (Nat.le_zero.1 hl)
      subst hnil; rfl
    | succ f2 =>
      cases l with
      | nil => rfl
      | cons b r =>
        simp only [List.length_cons] at hl
        have hdlen : ((b :: r).drop 16).length = r.length + 1 - 16 := by simp
        have h1 : chunks16F f2 ((b :: r).drop 16)
            = chunks16F ((b :: r).drop 16).length ((b :: r).drop 16) :=
          ih f2 (by omega) _ (by rw [hdlen]; omega)
        have h2 : chunks16F r.length ((b :: r).drop 16)
            = chunks16F ((b :: r).drop 16).length ((b :: r).drop 16) :=
          ih r.length (by omega) _ (by rw [hdlen]; omega)
        simp only [chunks16F, List.length_cons]
        rw [h1, h2]

theorem chunks16_nil : chunks16 [] = [] := rfl

theorem chunks16F_succ (f : Nat) (x : Nat) (xs : List Nat) :
    chunks16F (f + 1) (x :: xs) = (x :: xs).take 16 :: chunks16F f ((x :: xs).drop 16) := rfl

theorem chunks16_append16 {b : List Nat} (rest : List Nat)
    (hb : b.length = 16) : chunks16 (b ++ rest) = b :: chunks16 rest := by
  cases hb2 : b with
  | nil => rw [hb2] at hb; simp at hb
  | cons x xs =>
    rw [← hb2]
    have hcons : b ++ rest = x :: (xs ++ rest) := by rw [hb2]; rfl
    have hlen : (b ++ rest).length = (15 + rest.length) + 1 := by simp [hb]; omega
    unfold chunks16
    rw [hlen, hcons, chunks16F_succ, ← hcons]
    congr 1
    · rw [List.take_append_of_le_length (by omega)]
      exact hb ▸ List.take_length b
    · have hdropeq : (b ++ rest).drop 16 = rest := by
        rw [List.drop_append_of_le_length (by omega)]
        simp [hb]
      rw [hdropeq, chunks16F_fuel _ _ (by omega)]

/-- Every block produced by `chunks16` from a block-aligned list has
length 16, and the blocks concatenate back to the list. -/
theorem chunks16_spec {l : List Nat} (h : l.length % 16 = 0) :
    (∀ b ∈ chunks16 l, b.length = 16) ∧ (chunks16 l).flatten = l := by
  generalize hl : l.length = n at h
  induction n using Nat.strong_induction_on generalizing l with
  | _ n ih =>
    by_cases hnil : l = []
    · subst hnil; simp [chunks16_nil]
    · have hpos : 0 < l.length := List.length_pos.2 hnil
      have hlen : 16 ≤ l.length := by omega
      have hhead : (l.take 16).length = 16 := by simp; omega
      have hsplit : l = l.take 16 ++ l.drop 16 := (List.take_append_drop 16 l).symm
      rw [hsplit, chunks16_append16 _ hhead]
      have hdlen : (l.drop 16).length = l.length - 16 := by simp
      have := ih (l.drop 16).length (by rw [hdlen, hl]; omega)
        (show (l.drop 16).length = (l.drop 16).length from rfl)
        (by rw [hdlen, hl]; omega)
      refine ⟨?_, ?_⟩
      · intro b hb
        rcases List.mem_cons.1 hb with hb | hb
        · rw [hb]; exact hhead
        · exact this.1 b hb
      · rw [List.flatten_cons, this.2]

theorem cbcEncBlocks_valid (E : BlockCipher) {prev : List Nat} {bs : List (List Nat)}
    (hprev : ValidBlock prev) (hbs : ∀ b ∈ bs, ValidBlock b) :
    ∀ c ∈ cbcEncBlocks E prev bs, ValidBlock c := by
  induction bs generalizing prev with
  | nil => simp [cbcEncBlocks]
  | cons b rest ih =>
    intro c hc
    have hb : ValidBlock b := hbs b (by simp)
    have hcv : ValidBlock (E.enc (xorBlock b prev)) :=
      E.enc_valid _ (xorBlock_valid hb hprev)
    simp only [cbcEncBlocks, List.mem_cons] at hc
    rcases hc with hc | hc
    · exact hc ▸ hcv
    · exact ih hcv (fun x hx => hbs x (by simp [hx])) c hc

/-- CBC round trip at the block level. -/
theorem cbcDec_cbcEnc (E : BlockCipher) {prev : List Nat} {bs : List (List Nat)}
    (hprev : ValidBlock prev) (hbs : ∀ b ∈ bs, ValidBlock b) :
    cbcDecBlocks E prev (cbcEncBlocks E prev bs) = bs := by
  induction bs generalizing prev with
  | nil => rfl
  | cons b rest ih =>
    have hb : ValidBlock b := hbs b (by simp)
    have hx : ValidBlock (xorBlock b prev) := xorBlock_valid hb hprev
    have hcv : ValidBlock (E.enc (xorBlock b prev)) := E.enc_valid _ hx
    simp only [cbcEncBlocks, cbcDecBlocks]
    rw [E.dec_enc _ hx, xorBlock_cancel (by rw [hb.1, hprev.1]),
      ih hcv (fun x hx2 => hbs x (by simp [hx2]))]

/-- Core CBC facts shared by both codec variants: the ciphertext of a
padded plaintext is byte-ranged, block-aligned and nonempty, and
CBC-decrypting then unpadding it recovers the plaintext. -/
theorem cbcEncrypt_pad_facts (E : BlockCipher) {iv u : List Nat}
    (hiv : ValidBlock iv) (hu : ∀ b ∈ u, b < 256) :
    (∀ x ∈ cbcEncrypt E iv (padPkcs7 u), x < 256) ∧
    (cbcEncrypt E iv (padPkcs7 u)).length % 16 = 0 ∧
    (cbcEncrypt E iv (padPkcs7 u)).length ≠ 0 ∧
    unpadPkcs7 (cbcDecrypt E iv (cbcEncrypt E iv (padPkcs7 u))) = some u := by
  have hpadlt : ∀ b ∈ padPkcs7 u, b < 256 := padPkcs7_lt hu
  have hchunks := chunks16_spec (padPkcs7_length_mod u)
  have hblocks : ∀ b ∈ chunks16 (padPkcs7 u), ValidBlock b := by
    intro b hb
    refine ⟨hchunks.1 b hb, fun x hx => hpadlt x ?_⟩
    rw [← hchunks.2]
    exact List.mem_flatten.2 ⟨b, hb, hx⟩
  have hctblocks : ∀ c ∈ cbcEncBlocks E iv (chunks16 (padPkcs7 u)), ValidBlock c :=
    cbcEncBlocks_valid E hiv hblocks
  have hctlt : ∀ x ∈ cbcEncrypt E iv (padPkcs7 u), x < 256 := by
    intro x hx
    rcases List.mem_flatten.1 hx with ⟨c, hc, hxc⟩
    exact (hctblocks c hc).2 x hxc
  refine ⟨hctlt, ?_, ?_, ?_⟩
  · unfold cbcEncrypt
    have : ∀ bs : List (List Nat), (∀ c ∈ bs, ValidBlock c) →
        bs.flatten.length % 16 = 0 := by
      intro bs
      induction bs with
      | nil => simp
      | cons c cs ih =>
        intro hv
        simp only [List.flatten_cons, List.length_append, (hv c (by simp)).1]
        have := ih (fun x hx => hv x (by simp [hx]))
        omega
    exact this _ hctblocks
  · unfold cbcEncrypt
    intro hzero
    have hflat : (cbcEncBlocks E iv (chunks16 (padPkcs7 u))).flatten = [] :=
      List.length_eq_zero.1 hzero
    have hne : chunks16 (padPkcs7 u) ≠ [] := by
      intro hnil
      have hflat2 := hchunks.2
      rw [hnil] at hflat2
      have hpos := padPkcs7_length_pos u
      rw [← hflat2] at hpos
      simp at hpos
    cases hcc : chunks16 (padPkcs7 u) with
    | nil => exact hne hcc
    | cons c cs =>
      have hcv : ValidBlock (E.enc (xorBlock c iv)) := by
        apply E.enc_valid
        exact xorBlock_valid (hblocks c (by rw [hcc]; simp)) hiv
      rw [hcc] at hflat
      simp only [cbcEncBlocks, List.flatten_cons, List.append_eq_nil] at hflat
      have := hcv.1
      rw [hflat.1] at this
      simp at this
  · unfold cbcDecrypt
    rw [show cbcEncrypt E iv (padPkcs7 u)
        = (cbcEncBlocks E iv (chunks16 (padPkcs7 u))).flatten from rfl]
    have hrechunk : chunks16 (cbcEncBlocks E iv (chunks16 (padPkcs7 u))).flatten =
        cbcEncBlocks E iv (chunks16 (padPkcs7 u)) := by
      generalize hbs : cbcEncBlocks E iv (chunks16 (padPkcs7 u)) = bs at hctblocks
      clear hbs
      induction bs with
      | nil => simp [chunks16_nil]
      | cons c cs ih =>
        simp only [List.flatten_cons]
        rw [chunks16_append16 _ (hctblocks c (by simp)).1,
          ih (fun x hx => hctblocks x (by simp [hx]))]
    rw [hrechunk, cbcDec_cbcEnc E hiv hblocks, hchunks.2, unpad_pad]

namespace V1

/-- Taking up to the first colon of `a ++ 58 :: b` yields `a` when `a`
is colon-free. -/
theorem takeWhile_until_colon {a : List Nat} (b : List Nat)
    (ha : ∀ x ∈ a, x ≠ 58) :
    (a ++ 58 :: b).takeWhile (fun x => x != 58) = a := by
  induction a with
  | nil => simp [List.takeWhile]
  | cons y ys ih =>
    have hy : y ≠ 58 := ha y (by simp)
    simp only [List.cons_append, List.takeWhile_cons]
    rw [if_pos (by simpa using hy), ih (fun x hx => ha x (by simp [hx]))]

/-- Dropping through the first colon of `a ++ 58 :: b` yields `b` when
`a` is colon-free. -/
theorem dropWhile_until_colon {a : List Nat} (b : List Nat)
    (ha : ∀ x ∈ a, x ≠ 58) :
    ((a ++ 58 :: b).dropWhile (fun x => x != 58)).drop 1 = b := by
  induction a with
  | nil => simp [List.dropWhile]
  | cons y ys ih =>
    have hy : y ≠ 58 := ha y (by simp)
    simp only [List.cons_append, List.dropWhile_cons]
    rw [if_pos (by simpa using hy)]
    exact ih (fun x hx => ha x (by simp [hx]))

/-- Codec round trip for the first variant, with an arbitrary junk
suffix whose lenient hex decoding is empty (for example non-hex bytes,
or a lone trailing hex digit): decrypting an encryption of any byte
string under the same cipher and a valid IV returns it exactly. -/
theorem decryptUrl_encryptUrl_junk (E : BlockCipher) {iv u j : List Nat}
    (hiv : ValidBlock iv) (hu : ∀ b ∈ u, b < 256)
    (hj : hexDecodeLenient j = []) :
    decryptUrl E (encryptUrl E iv u ++ j) = some u := by
  obtain h := cbcEncrypt_pad_facts E hiv hu
  obtain ⟨hctlt, hmod, hne0, hdec⟩ := h
  simp only [encryptUrl, decryptUrl]
  rw [show hexEncode iv ++ 58 :: hexEncode (cbcEncrypt E iv (padPkcs7 u)) ++ j
      = hexEncode iv ++ 58 :: (hexEncode (cbcEncrypt E iv (padPkcs7 u)) ++ j) by simp]
  rw [takeWhile_until_colon _ (hexEncode_ne_colon hiv.2),
    dropWhile_until_colon _ (hexEncode_ne_colon hiv.2),
    hexDecode_hexEncode hiv.2, hexDecode_hexEncode_append j hctlt, hj,
    List.append_nil]
  rw [if_neg (by simp [hiv.1])]
  rw [if_neg (by omega)]
  exact hdec

/-- Codec round trip for the first variant. -/
theorem decryptUrl_encryptUrl (E : BlockCipher) {iv u : List Nat}
    (hiv : ValidBlock iv) (hu : ∀ b ∈ u, b < 256) :
    decryptUrl E (encryptUrl E iv u) = some u := by
  have := decryptUrl_encryptUrl_junk E hiv hu (show hexDecodeLenient [] = [] from rfl)
  simpa using this

/-- A token without a colon separator always decodes to the `null`
sentinel: either the IV half is not 16 bytes (`createDecipheriv`
throws) or the ciphertext half is empty (`final()` throws). -/
theorem decryptUrl_noColon (E : BlockCipher) {s : List Nat}
    (h : ∀ x ∈ s, x ≠ 58) : decryptUrl E s = none := by
  simp only [decryptUrl]
  rw [List.takeWhile_eq_self_iff.2 (by intro x hx; simpa using h x hx),
    List.dropWhile_eq_nil_iff.2 (by intro x hx; simpa using h x hx)]
  by_cases hlen : (hexDecodeLenient s).length ≠ 16
  · rw [if_pos hlen]
  · rw [if_neg hlen]
    simp [hexDecodeLenient]

end V1

namespace V2

/-- Codec round trip for the second variant. -/
theorem decryptUrl_encryptUrl2 (E : BlockCipher) {iv0 u : List Nat}
    (hiv : ValidBlock iv0) (hu : ∀ b ∈ u, b < 256) :
    decryptUrl E iv0 (encryptUrl E iv0 u) = some u := by
  obtain ⟨hctlt, hmod, hne0, hdec⟩ := cbcEncrypt_pad_facts E hiv hu
  simp only [encryptUrl, decryptUrl]
  rw [hexDecode_hexEncode hctlt]
  rw [if_neg (by omega)]
  exact hdec

end V2

/-- C1: for every valid absolute URL `u` (as UTF-8 bytes) with scheme
`http` or `https`, decoding the token produced by encoding `u` under
the same process key (block cipher `E`) and any freshly drawn 16-byte
IV returns exactly `u`: `decryptUrl (encryptUrl u) = u`. -/
theorem C1_roundtrip (E : BlockCipher) (iv u : List Nat)
    (hiv : ValidBlock iv) (hu : ∀ b ∈ u, b < 256)
    (_hurl : V1.isValidUrl u = true) :
    V1.decryptUrl E (V1.encryptUrl E iv u) = some u :=
  V1.decryptUrl_encryptUrl E hiv hu

theorem C1_roundtrip_witness :
    V1.decryptUrl idCipher
        (V1.encryptUrl idCipher (List.replicate 16 0) (ub "https://example.org/a?b=1"))
      = some (ub "https://example.org/a?b=1") :=
  C1_roundtrip idCipher (List.replicate 16 0) (ub "https://example.org/a?b=1")
    (by decide) (by decide) (by decide)

/-- C3 (amended): decode is total and returns the `null` sentinel
rather than throwing: any input without a colon separator fails; but
because Node's hex decoder is lenient (it stops at the first non-hex
pair), a string with non-hex segments is not always rejected — a valid
token with non-hex bytes appended still decodes to the original URL. -/
theorem C3_decode_robustness (E : BlockCipher) (s iv u j : List Nat) :
    ((∀ x ∈ s, x ≠ 58) → V1.decryptUrl E s = none) ∧
    (ValidBlock iv → (∀ b ∈ u, b < 256) → hexDecodeLenient j = [] →
      V1.decryptUrl E (V1.encryptUrl E iv u ++ j) = some u) :=
  ⟨fun h => V1.decryptUrl_noColon E h,
   fun hiv hu hj => V1.decryptUrl_encryptUrl_junk E hiv hu hj⟩

theorem C3_decode_robustness_witness :
    V1.decryptUrl idCipher (ub "nocolonhere") = none ∧
    V1.decryptUrl idCipher
        (V1.encryptUrl idCipher (List.replicate 16 0) (ub "http://a/") ++ ub "zz")
      = some (ub "http://a/") :=
  ⟨(C3_decode_robustness idCipher (ub "nocolonhere") (List.replicate 16 0)
      (ub "http://a/") (ub "zz")).1 (by decide),
   (C3_decode_robustness idCipher (ub "nocolonhere") (List.replicate 16 0)
      (ub "http://a/") (ub "zz")).2 (by decide) (by decide) (by decide)⟩

/-- C3 counterexample: the claim asserts that decode returns failure on
every input containing non-hex segments; here a token whose ciphertext
segment ends in the non-hex bytes `zz` decodes successfully (to
`http://a/`), because the lenient hex decoder silently drops the junk
pair. -/
theorem C3_nonhex_decodes :
    V1.decryptUrl idCipher
        (V1.encryptUrl idCipher (List.replicate 16 0) (ub "http://a/") ++ ub "zz")
      = some (ub "http://a/") ∧
    (ub "zz").all (fun b => !isHexB b) = true ∧
    V1.decryptUrl idCipher
        (V1.encryptUrl idCipher (List.replicate 16 0) (ub "http://a/") ++ ub "zz")
      ≠ none := by
  refine ⟨by decide, by decide, by decide⟩

/-- C4: two `encryptUrl` invocations on the same URL draw distinct
fresh random IVs, hence produce different token strings, and both
tokens still decode to the URL.  The distinctness of an ideal 16-byte
random draw pair is expressed as the hypothesis `iv1 ≠ iv2`. -/
theorem C4_nondeterminism (E : BlockCipher) (iv1 iv2 u : List Nat)
    (h1 : ValidBlock iv1) (h2 : ValidBlock iv2) (hne : iv1 ≠ iv2)
    (hu : ∀ b ∈ u, b < 256) :
    V1.encryptUrl E iv1 u ≠ V1.encryptUrl E iv2 u ∧
    V1.decryptUrl E (V1.encryptUrl E iv1 u) = some u ∧
    V1.decryptUrl E (V1.encryptUrl E iv2 u) = some u := by
  refine ⟨?_, V1.decryptUrl_encryptUrl E h1 hu, V1.decryptUrl_encryptUrl E h2 hu⟩
  intro heq
  apply hne
  have h3 : (V1.encryptUrl E iv1 u).takeWhile (fun b => b != 58)
      = (V1.encryptUrl E iv2 u).takeWhile (fun b => b != 58) := by rw [heq]
  rw [V1.encryptUrl, V1.encryptUrl,
    V1.takeWhile_until_colon _ (hexEncode_ne_colon h1.2),
    V1.takeWhile_until_colon _ (hexEncode_ne_colon h2.2)] at h3
  have h4 := congrArg hexDecodeLenient h3
  rwa [hexDecode_hexEncode h1.2, hexDecode_hexEncode h2.2] at h4

theorem C4_nondeterminism_witness :
    V1.encryptUrl idCipher (List.replicate 16 0) (ub "https://example.org/")
      ≠ V1.encryptUrl idCipher (1 :: List.replicate 15 0) (ub "https://example.org/") ∧
    V1.decryptUrl idCipher
        (V1.encryptUrl idCipher (List.replicate 16 0) (ub "https://example.org/"))
      = some (ub "https://example.org/") ∧
    V1.decryptUrl idCipher
        (V1.encryptUrl idCipher (1 :: List.replicate 15 0) (ub "https://example.org/"))
      = some (ub "https://example.org/") :=
  C4_nondeterminism idCipher (List.replicate 16 0) (1 :: List.replicate 15 0)
    (ub "https://example.org/") (by decide) (by decide) (by decide) (by decide)

/-- C5: a malformed or undecryptable token (decode returns the
sentinel) gets an endpoint-specific failure presentation: HTTP 400 on
`/proxy`, the transparent placeholder pixel (never an error page) on
`/image`, and an empty-body 404 on `/asset`. -/
theorem C5_failure_presentation (E : BlockCipher) (t : List Nat)
    (h : V1.decryptUrl E t = none) :
    V1.proxyRoute E t = .respond 400 (.text (ub "Invalid URL")) ∧
    V1.imageRoute E t = .respond 200 .pixelPng ∧
    V1.assetRoute E t = .respond 404 (.text []) := by
  unfold V1.proxyRoute V1.imageRoute V1.assetRoute
  rw [h]
  exact ⟨rfl, rfl, rfl⟩

theorem C5_failure_presentation_witness :
    V1.proxyRoute idCipher (ub "zz") = .respond 400 (.text (ub "Invalid URL")) ∧
    V1.imageRoute idCipher (ub "zz") = .respond 200 .pixelPng ∧
    V1.assetRoute idCipher (ub "zz") = .respond 404 (.text []) :=
  C5_failure_presentation idCipher (ub "zz") (by decide)

/-- C10: every proxied route re-validates the decoded plaintext with
`isValidUrl` before fetching — an upstream request is only issued for
a valid `http`/`https` URL, and a token that decrypts to an invalid
URL takes exactly the same failure path as an undecryptable one. -/
theorem C10_revalidation (E : BlockCipher) (t u s : List Nat) :
    (V1.proxyRoute E t = .fetchUpstream u → V1.isValidUrl u = true) ∧
    (V1.imageRoute E t = .fetchUpstream u → V1.isValidUrl u = true) ∧
    (V1.assetRoute E t = .fetchUpstream u → V1.isValidUrl u = true) ∧
    (V1.decryptUrl E t = some s → V1.isValidUrl s = false →
      V1.proxyRoute E t = .respond 400 (.text (ub "Invalid URL")) ∧
      V1.imageRoute E t = .respond 200 .pixelPng ∧
      V1.assetRoute E t = .respond 404 (.text [])) := by
  refine ⟨?_, ?_, ?_, ?_⟩
  · unfold V1.proxyRoute
    cases hd : V1.decryptUrl E t with
    | none => intro h; simp at h
    | some v =>
      dsimp only
      by_cases hv : v.isEmpty || !V1.isValidUrl v
      · rw [if_pos hv]; intro h; simp at h
      · rw [if_neg hv]
        intro h
        have hvu : v = u := by simpa using h
        simp only [Bool.or_eq_true, Bool.not_eq_true'] at hv
        push_neg at hv
        rw [← hvu]
        simpa using hv.2
  · unfold V1.imageRoute
    cases hd : V1.decryptUrl E t with
    | none => intro h; simp at h
    | some v =>
      dsimp only
      by_cases hv : v.isEmpty || !V1.isValidUrl v
      · rw [if_pos hv]; intro h; simp at h
      · rw [if_neg hv]
        intro h
        have hvu : v = u := by simpa using h
        simp only [Bool.or_eq_true, Bool.not_eq_true'] at hv
        push_neg at hv
        rw [← hvu]
        simpa using hv.2
  · unfold V1.assetRoute
    cases hd : V1.decryptUrl E t with
    | none => intro h; simp at h
    | some v =>
      dsimp only
      by_cases hv : v.isEmpty || !V1.isValidUrl v
      · rw [if_pos hv]; intro h; simp at h
      · rw [if_neg hv]
        intro h
        have hvu : v = u := by simpa using h
        simp only [Bool.or_eq_true, Bool.not_eq_true'] at hv
        push_neg at hv
        rw [← hvu]
        simpa using hv.2
  · intro hd hval
    have hcond : (s.isEmpty || !V1.isValidUrl s) = true := by
      simp [hval]
    unfold V1.proxyRoute V1.imageRoute V1.assetRoute
    rw [hd]
    dsimp only
    simp [hcond]

theorem C10_revalidation_witness :
    V1.proxyRoute idCipher
        (V1.encryptUrl idCipher (List.replicate 16 0) (ub "notaurl"))
      = .respond 400 (.text (ub "Invalid URL")) ∧
    V1.imageRoute idCipher
        (V1.encryptUrl idCipher (List.replicate 16 0) (ub "notaurl"))
      = .respond 200 .pixelPng ∧
    V1.assetRoute idCipher
        (V1.encryptUrl idCipher (List.replicate 16 0) (ub "notaurl"))
      = .respond 404 (.text []) :=
  (C10_revalidation idCipher
      (V1.encryptUrl idCipher (List.replicate 16 0) (ub "notaurl"))
      [] (ub "notaurl")).2.2.2 (by decide) (by decide)

namespace V2

theorem anchorStep_eq (E : BlockCipher) (iv0 base : List Nat) (e : Element)
    (href ua : List Nat)
    (htag : e.tag = ub "a") (hattr : getAttr e (ub "href") = some href)
    (hne : href.isEmpty = false)
    (hjs : pfx (ub "javascript:") href = false)
    (hhash : pfx (ub "#") href = false)
    (hres : urlResolve base href = ua) (hval : isValidUrl ua = true) :
    anchorStep E iv0 base e
      = setAttr e (ub "href") (ub "/proxy/" ++ encryptUrl E iv0 ua) := by
  simp [anchorStep, htag, hattr, hne, hjs, hhash, hres, hval]

theorem anchorStep_ne (E : BlockCipher) (iv0 base : List Nat) (e : Element)
    (h : (e.tag == ub "a") = false) : anchorStep E iv0 base e = e := by
  simp [anchorStep, h]

theorem imgStep_eq (E : BlockCipher) (iv0 base : List Nat) (e : Element)
    (src ui : List Nat)
    (htag : e.tag = ub "img") (hattr : getAttr e (ub "src") = some src)
    (hne : src.isEmpty = false)
    (hres : urlResolve base src = ui) (hval : isValidUrl ui = true) :
    imgStep E iv0 base e
      = setAttr e (ub "src") (ub "/image/" ++ encryptUrl E iv0 ui) := by
  simp [imgStep, htag, hattr, hne, hres, hval]

theorem imgStep_ne (E : BlockCipher) (iv0 base : List Nat) (e : Element)
    (h : (e.tag == ub "img") = false) : imgStep E iv0 base e = e := by
  simp [imgStep, h]

theorem linkStep_eq (E : BlockCipher) (iv0 base : List Nat) (e : Element)
    (href ul : List Nat)
    (htag : e.tag = ub "link") (hrel : getAttr e (ub "rel") = some (ub "stylesheet"))
    (hattr : getAttr e (ub "href") = some href) (hne : href.isEmpty = false)
    (hres : urlResolve base href = ul) (hval : isValidUrl ul = true) :
    linkStep E iv0 base e
      = setAttr e (ub "href") (ub "/asset/" ++ encryptUrl E iv0 ul) := by
  simp [linkStep, htag, hrel, hattr, hne, hres, hval]

theorem linkStep_ne (E : BlockCipher) (iv0 base : List Nat) (e : Element)
    (h : (e.tag == ub "link" && getAttr e (ub "rel") == some (ub "stylesheet"))
      = false) : linkStep E iv0 base e = e := by
  simp only [linkStep, h]
  rw [if_neg (by simp)]

theorem scriptStep_eq (E : BlockCipher) (iv0 base : List Nat) (e : Element)
    (src us : List Nat)
    (htag : e.tag = ub "script") (hattr : getAttr e (ub "src") = some src)
    (hne : src.isEmpty = false)
    (hres : urlResolve base src = us) (hval : isValidUrl us = true) :
    scriptStep E iv0 base e
      = setAttr e (ub "src") (ub "/asset/" ++ encryptUrl E iv0 us) := by
  simp [scriptStep, htag, hattr, hne, hres, hval]

theorem scriptStep_ne (E : BlockCipher) (iv0 base : List Nat) (e : Element)
    (h : (e.tag == ub "script" && (getAttr e (ub "src")).isSome) = false) :
    scriptStep E iv0 base e = e := by
  simp only [scriptStep, h]
  rw [if_neg (by simp)]

end V2

/-- C2 (amended: holds for the second variant's `processHtml`, lines
1149-1246): a document with one anchor, one image, one stylesheet link
and one script, whose references resolve against the base URL to valid
URLs, is rewritten so that the anchor gets `/proxy/{token}`, the image
`/image/{token}`, and the stylesheet and script `/asset/{token}`, each
token decoding back to the correctly resolved absolute URL. -/
theorem C2_rewrite_coverage (E : BlockCipher)
    (iv0 base ah isrc lh ssrc ua ui ul us : List Nat)
    (hiv : ValidBlock iv0)
    (hane : ah.isEmpty = false) (hjs : pfx (ub "javascript:") ah = false)
    (hhash : pfx (ub "#") ah = false)
    (hine : isrc.isEmpty = false) (hlne : lh.isEmpty = false)
    (hsne : ssrc.isEmpty = false)
    (hra : urlResolve base ah = ua) (hri : urlResolve base isrc = ui)
    (hrl : urlResolve base lh = ul) (hrs : urlResolve base ssrc = us)
    (hva : V2.isValidUrl ua = true) (hvi : V2.isValidUrl ui = true)
    (hvl : V2.isValidUrl ul = true) (hvs : V2.isValidUrl us = true)
    (hua : ∀ b ∈ ua, b < 256) (hui : ∀ b ∈ ui, b < 256)
    (hul : ∀ b ∈ ul, b < 256) (hus : ∀ b ∈ us, b < 256) :
    V2.processHtml E iv0 base
      [⟨ub "a", [(ub "href", ah)]⟩,
       ⟨ub "img", [(ub "src", isrc)]⟩,
       ⟨ub "link", [(ub "rel", ub "stylesheet"), (ub "href", lh)]⟩,
       ⟨ub "script", [(ub "src", ssrc)]⟩]
    = [V2.injectedScript,
       ⟨ub "a", [(ub "href", ub "/proxy/" ++ V2.encryptUrl E iv0 ua)]⟩,
       ⟨ub "img", [(ub "src", ub "/image/" ++ V2.encryptUrl E iv0 ui)]⟩,
       ⟨ub "link", [(ub "rel", ub "stylesheet"),
                    (ub "href", ub "/asset/" ++ V2.encryptUrl E iv0 ul)]⟩,
       ⟨ub "script", [(ub "src", ub "/asset/" ++ V2.encryptUrl E iv0 us)]⟩] ∧
    V2.decryptUrl E iv0 (V2.encryptUrl E iv0 ua) = some ua ∧
    V2.decryptUrl E iv0 (V2.encryptUrl E iv0 ui) = some ui ∧
    V2.decryptUrl E iv0 (V2.encryptUrl E iv0 ul) = some ul ∧
    V2.decryptUrl E iv0 (V2.encryptUrl E iv0 us) = some us := by
  refine ⟨?_, V2.decryptUrl_encryptUrl2 E hiv hua, V2.decryptUrl_encryptUrl2 E hiv hui,
    V2.decryptUrl_encryptUrl2 E hiv hul, V2.decryptUrl_encryptUrl2 E hiv hus⟩
  simp only [V2.processHtml, List.map_cons, List.map_nil]
  rw [V2.anchorStep_eq E iv0 base ⟨ub "a", [(ub "href", ah)]⟩ ah ua
      rfl rfl hane hjs hhash hra hva,
    V2.anchorStep_ne E iv0 base ⟨ub "img", [(ub "src", isrc)]⟩ rfl,
    V2.anchorStep_ne E iv0 base
      ⟨ub "link", [(ub "rel", ub "stylesheet"), (ub "href", lh)]⟩ rfl,
    V2.anchorStep_ne E iv0 base ⟨ub "script", [(ub "src", ssrc)]⟩ rfl]
  rw [V2.imgStep_ne E iv0 base
      (setAttr ⟨ub "a", [(ub "href", ah)]⟩ (ub "href")
        (ub "/proxy/" ++ V2.encryptUrl E iv0 ua)) rfl,
    V2.imgStep_eq E iv0 base ⟨ub "img", [(ub "src", isrc)]⟩ isrc ui
      rfl rfl hine hri hvi,
    V2.imgStep_ne E iv0 base
      ⟨ub "link", [(ub "rel", ub "stylesheet"), (ub "href", lh)]⟩ rfl,
    V2.imgStep_ne E iv0 base ⟨ub "script", [(ub "src", ssrc)]⟩ rfl]
  rw [V2.linkStep_ne E iv0 base
      (setAttr ⟨ub "a", [(ub "href", ah)]⟩ (ub "href")
        (ub "/proxy/" ++ V2.encryptUrl E iv0 ua)) rfl,
    V2.linkStep_ne E iv0 base
      (setAttr ⟨ub "img", [(ub "src", isrc)]⟩ (ub "src")
        (ub "/image/" ++ V2.encryptUrl E iv0 ui)) rfl,
    V2.linkStep_eq E iv0 base
      ⟨ub "link", [(ub "rel", ub "stylesheet"), (ub "href", lh)]⟩ lh ul
      rfl rfl rfl hlne hrl hvl,
    V2.linkStep_ne E iv0 base ⟨ub "script", [(ub "src", ssrc)]⟩ rfl]
  rw [V2.scriptStep_ne E iv0 base
      (setAttr ⟨ub "a", [(ub "href", ah)]⟩ (ub "href")
        (ub "/proxy/" ++ V2.encryptUrl E iv0 ua)) rfl,
    V2.scriptStep_ne E iv0 base
      (setAttr ⟨ub "img", [(ub "src", isrc)]⟩ (ub "src")
        (ub "/image/" ++ V2.encryptUrl E iv0 ui)) rfl,
    V2.scriptStep_ne E iv0 base
      (setAttr ⟨ub "link", [(ub "rel", ub "stylesheet"), (ub "href", lh)]⟩
        (ub "href") (ub "/asset/" ++ V2.encryptUrl E iv0 ul)) rfl,
    V2.scriptStep_eq E iv0 base ⟨ub "script", [(ub "src", ssrc)]⟩ ssrc us
      rfl rfl hsne hrs hvs]
  rfl

theorem C2_rewrite_coverage_witness :
    V2.processHtml idCipher (List.replicate 16 0) (ub "https://example.com/dir/page.html")
      [⟨ub "a", [(ub "href", ub "a.html")]⟩,
       ⟨ub "img", [(ub "src", ub "img.png")]⟩,
       ⟨ub "link", [(ub "rel", ub "stylesheet"), (ub "href", ub "style.css")]⟩,
       ⟨ub "script", [(ub "src", ub "app.js")]⟩]
    = [V2.injectedScript,
       ⟨ub "a", [(ub "href", ub "/proxy/" ++
          V2.encryptUrl idCipher (List.replicate 16 0) (ub "https://example.com/dir/a.html"))]⟩,
       ⟨ub "img", [(ub "src", ub "/image/" ++
          V2.encryptUrl idCipher (List.replicate 16 0) (ub "https://example.com/dir/img.png"))]⟩,
       ⟨ub "link", [(ub "rel", ub "stylesheet"),
                    (ub "href", ub "/asset/" ++
          V2.encryptUrl idCipher (List.replicate 16 0) (ub "https://example.com/dir/style.css"))]⟩,
       ⟨ub "script", [(ub "src", ub "/asset/" ++
          V2.encryptUrl idCipher (List.replicate 16 0) (ub "https://example.com/dir/app.js"))]⟩] ∧
    V2.decryptUrl idCipher (List.replicate 16 0)
        (V2.encryptUrl idCipher (List.replicate 16 0) (ub "https://example.com/dir/a.html"))
      = some (ub "https://example.com/dir/a.html") ∧
    V2.decryptUrl idCipher (List.replicate 16 0)
        (V2.encryptUrl idCipher (List.replicate 16 0) (ub "https://example.com/dir/img.png"))
      = some (ub "https://example.com/dir/img.png") ∧
    V2.decryptUrl idCipher (List.replicate 16 0)
        (V2.encryptUrl idCipher (List.replicate 16 0) (ub "https://example.com/dir/style.css"))
      = some (ub "https://example.com/dir/style.css") ∧
    V2.decryptUrl idCipher (List.replicate 16 0)
        (V2.encryptUrl idCipher (List.replicate 16 0) (ub "https://example.com/dir/app.js"))
      = some (ub "https://example.com/dir/app.js") :=
  C2_rewrite_coverage idCipher (List.replicate 16 0)
    (ub "https://example.com/dir/page.html")
    (ub "a.html") (ub "img.png") (ub "style.css") (ub "app.js")
    (ub "https://example.com/dir/a.html") (ub "https://example.com/dir/img.png")
    (ub "https://example.com/dir/style.css") (ub "https://example.com/dir/app.js")
    (by decide) (by decide) (by decide) (by decide) (by decide) (by decide)
    (by decide) (by decide) (by decide) (by decide) (by decide) (by decide)
    (by decide) (by decide) (by decide) (by decide) (by decide) (by decide)
    (by decide)

/-- C2 counterexample against the first variant's `processHtml` (lines
155-428, also cited by the claim): on the very document shape the
claim quantifies over, the stylesheet link and the script are left
completely untouched — the first variant has no `link` or `script`
pass — so their attributes are not replaced by `/asset/{token}`. -/
theorem C2_v1_ignores_assets :
    ((V1.processHtmlDoc
        (fun _ u => some (V1.encryptUrl idCipher (List.replicate 16 0) u))
        (ub "https://example.com/dir/page.html")
        [⟨ub "a", [(ub "href", ub "a.html")]⟩,
         ⟨ub "img", [(ub "src", ub "img.png")]⟩,
         ⟨ub "link", [(ub "rel", ub "stylesheet"), (ub "href", ub "style.css")]⟩,
         ⟨ub "script", [(ub "src", ub "app.js")]⟩] 0)[4]?
      = some ⟨ub "link", [(ub "rel", ub "stylesheet"), (ub "href", ub "style.css")]⟩) ∧
    ((V1.processHtmlDoc
        (fun _ u => some (V1.encryptUrl idCipher (List.replicate 16 0) u))
        (ub "https://example.com/dir/page.html")
        [⟨ub "a", [(ub "href", ub "a.html")]⟩,
         ⟨ub "img", [(ub "src", ub "img.png")]⟩,
         ⟨ub "link", [(ub "rel", ub "stylesheet"), (ub "href", ub "style.css")]⟩,
         ⟨ub "script", [(ub "src", ub "app.js")]⟩] 0)[5]?
      = some ⟨ub "script", [(ub "src", ub "app.js")]⟩) ∧
    pfx (ub "/asset/") (ub "style.css") = false ∧
    pfx (ub "/asset/") (ub "app.js") = false := by
  refine ⟨by decide, by decide, by decide, by decide⟩

theorem applyPass_cons (step : Element → Nat → Element × Nat) (e : Element)
    (es : List Element) (k : Nat) :
    applyPass step (e :: es) k
      = ((step e k).1 :: (applyPass step es (step e k).2).1,
         (applyPass step es (step e k).2).2) := rfl

theorem applyPass_append (step : Element → Nat → Element × Nat)
    (xs ys : List Element) (k : Nat) :
    applyPass step (xs ++ ys) k
      = ((applyPass step xs k).1 ++ (applyPass step ys (applyPass step xs k).2).1,
         (applyPass step ys (applyPass step xs k).2).2) := by
  induction xs generalizing k with
  | nil => simp [applyPass]
  | cons e es ih => simp [applyPass, ih]

theorem applyPass_length (step : Element → Nat → Element × Nat)
    (xs : List Element) (k : Nat) :
    (applyPass step xs k).1.length = xs.length := by
  induction xs generalizing k with
  | nil => rfl
  | cons e es ih => simp [applyPass, ih]

/-- An element fixed by a pass step (for every counter value) passes
through an `.each` traversal unchanged, in place. -/
theorem applyPass_middle (step : Element → Nat → Element × Nat)
    (pre post : List Element) (e : Element) (k : Nat)
    (hfix : ∀ k2, step e k2 = (e, k2)) :
    ∃ pre2 post2 k3,
      applyPass step (pre ++ e :: post) k = (pre2 ++ e :: post2, k3) ∧
      pre2.length = pre.length := by
  refine ⟨(applyPass step pre k).1,
    (applyPass step post (applyPass step pre k).2).1,
    (applyPass step post (applyPass step pre k).2).2, ?_,
    applyPass_length step pre k⟩
  rw [applyPass_append, applyPass_cons, hfix]

namespace V1

theorem anchorStep_skip (tok : Nat → List Nat → Option (List Nat))
    (base : List Nat) (e : Element) (h : List Nat) (k : Nat)
    (htag : e.tag = ub "a") (hattr : getAttr e (ub "href") = some h)
    (hskip : pfx (ub "javascript:") h = true ∨ pfx (ub "#") h = true ∨
      pfx (ub "mailto:") h = true) :
    anchorStep tok base e k = (e, k) := by
  unfold anchorStep
  rw [if_pos (by simp [htag]), hattr]
  dsimp only
  rw [if_neg (by rcases hskip with h1 | h1 | h1 <;> simp [h1])]

theorem anchorStep_notag (tok : Nat → List Nat → Option (List Nat))
    (base : List Nat) (e : Element) (k : Nat)
    (h2 : (e.tag == ub "a") = false) : anchorStep tok base e k = (e, k) := by
  simp [anchorStep, h2]

theorem formStep_notag (tok : Nat → List Nat → Option (List Nat))
    (base : List Nat) (e : Element) (k : Nat)
    (h2 : (e.tag == ub "form") = false) : formStep tok base e k = (e, k) := by
  simp [formStep, h2]

theorem imgStep_notag (tok : Nat → List Nat → Option (List Nat))
    (base : List Nat) (e : Element) (k : Nat)
    (h2 : (e.tag == ub "img") = false) : imgStep tok base e k = (e, k) := by
  simp [imgStep, h2]

end V1

/-- C7 (amended: holds for the first variant, lines 163-176): an
anchor whose `href` starts with `javascript:`, `#` or `mailto:` passes
through the whole HTML rewrite with its element — in particular its
`href` attribute — unchanged, wherever it sits in the document. -/
theorem C7_skip_schemes (tok : Nat → List Nat → Option (List Nat))
    (base : List Nat) (pre post : List Element) (e : Element)
    (h : List Nat) (k : Nat)
    (htag : e.tag = ub "a") (hattr : getAttr e (ub "href") = some h)
    (hskip : pfx (ub "javascript:") h = true ∨ pfx (ub "#") h = true ∨
      pfx (ub "mailto:") h = true) :
    ∃ pre2 post2, V1.processHtmlDoc tok base (pre ++ e :: post) k
      = V1.overlayDiv :: V1.hoverDiv :: (pre2 ++ e :: post2) ∧
      pre2.length = pre.length := by
  obtain ⟨p1, q1, k1, he1, hl1⟩ := applyPass_middle (V1.anchorStep tok base)
    pre post e k (fun k2 => V1.anchorStep_skip tok base e h k2 htag hattr hskip)
  obtain ⟨p2, q2, k2, he2, hl2⟩ := applyPass_middle (V1.formStep tok base)
    p1 q1 e k1 (fun k2 => V1.formStep_notag tok base e k2 (by rw [htag]; decide))
  obtain ⟨p3, q3, k3, he3, hl3⟩ := applyPass_middle (V1.imgStep tok base)
    p2 q2 e k2 (fun k2 => V1.imgStep_notag tok base e k2 (by rw [htag]; decide))
  refine ⟨p3, q3 ++ [V1.injectedStyle, V1.injectedScript], ?_, by omega⟩
  unfold V1.processHtmlDoc
  rw [he1]
  dsimp only
  rw [he2]
  dsimp only
  rw [he3]
  dsimp only
  simp

theorem C7_skip_schemes_witness :
    ∃ pre2 post2,
      V1.processHtmlDoc (fun _ u => some (V1.encryptUrl idCipher (List.replicate 16 0) u))
        (ub "https://example.com/")
        ([⟨ub "img", [(ub "src", ub "i.png")]⟩] ++
          ⟨ub "a", [(ub "href", ub "javascript:doThing()")]⟩ ::
          [⟨ub "a", [(ub "href", ub "#section")]⟩]) 0
      = V1.overlayDiv :: V1.hoverDiv ::
          (pre2 ++ ⟨ub "a", [(ub "href", ub "javascript:doThing()")]⟩ :: post2) ∧
      pre2.length = 1 :=
  C7_skip_schemes (fun _ u => some (V1.encryptUrl idCipher (List.replicate 16 0) u))
    (ub "https://example.com/")
    [⟨ub "img", [(ub "src", ub "i.png")]⟩]
    [⟨ub "a", [(ub "href", ub "#section")]⟩]
    ⟨ub "a", [(ub "href", ub "javascript:doThing()")]⟩
    (ub "javascript:doThing()") 0 rfl rfl (Or.inl (by decide))

/-- C7 counterexample against the second variant's `processHtml`
(lines 1153-1162, also cited by the claim): its skip list lacks
`mailto:` and its `isValidUrl` accepts any parseable URL, so a
`mailto:` anchor is rewritten to `/proxy/{token}` instead of being
left untouched. -/
theorem C7_v2_rewrites_mailto :
    V2.processHtml idCipher (List.replicate 16 0) (ub "https://example.com/")
        [⟨ub "a", [(ub "href", ub "mailto:a@b.c")]⟩]
      = [V2.injectedScript,
         ⟨ub "a", [(ub "href", ub "/proxy/" ++
            V2.encryptUrl idCipher (List.replicate 16 0) (ub "mailto:a@b.c"))]⟩] ∧
    getAttr ((V2.processHtml idCipher (List.replicate 16 0) (ub "https://example.com/")
        [⟨ub "a", [(ub "href", ub "mailto:a@b.c")]⟩])[1]?.getD ⟨[], []⟩) (ub "href")
      ≠ some (ub "mailto:a@b.c") := by
  refine ⟨by decide, by decide⟩

namespace V1

theorem anchorStep_tokfail (tok : Nat → List Nat → Option (List Nat))
    (base : List Nat) (e : Element) (h : List Nat) (k : Nat)
    (htag : e.tag = ub "a") (hattr : getAttr e (ub "href") = some h)
    (hne : h.isEmpty = false) (hjs : pfx (ub "javascript:") h = false)
    (hhash : pfx (ub "#") h = false) (hmailto : pfx (ub "mailto:") h = false)
    (hval : isValidUrl (urlResolve base h) = true)
    (htok : tok k (urlResolve base h) = none) :
    anchorStep tok base e k = (e, k + 1) := by
  simp [anchorStep, htag, hattr, hne, hjs, hhash, hmailto, hval, htok]

theorem formStep_tokfail (tok : Nat → List Nat → Option (List Nat))
    (base : List Nat) (e : Element) (h : List Nat) (k : Nat)
    (htag : e.tag = ub "form") (hattr : getAttr e (ub "action") = some h)
    (hne : h.isEmpty = false) (hhash : pfx (ub "#") h = false)
    (hval : isValidUrl (urlResolve base h) = true)
    (htok : tok k (urlResolve base h) = none) :
    formStep tok base e k = (e, k + 1) := by
  simp [formStep, htag, hattr, hne, hhash, hval, htok]

theorem imgStep_tokfail (tok : Nat → List Nat → Option (List Nat))
    (base : List Nat) (e : Element) (h : List Nat) (k : Nat)
    (htag : e.tag = ub "img") (hattr : getAttr e (ub "src") = some h)
    (hne : h.isEmpty = false) (hdata : pfx (ub "data:") h = false)
    (hval : isValidUrl (urlResolve base h) = true)
    (htok : tok k (urlResolve base h) = none) :
    imgStep tok base e k = (e, k + 1) := by
  simp [imgStep, htag, hattr, hne, hdata, hval, htok]

end V1

/-- C9: the HTML rewrite is total and never fails outward.  If parsing
itself fails catastrophically the original input document is returned
unmodified; when parsing succeeds the rewriter always returns the
serialisation of the transformed document; and an internal error while
processing a single reference (a token-source failure, modelling a
thrown cipher error inside the per-reference `try/catch`) is swallowed,
leaving exactly that one element untouched while traversal continues. -/
theorem C9_rewrite_totality (parse : List Nat → Option (List Element))
    (render : List Element → List Nat)
    (tok : Nat → List Nat → Option (List Nat)) (html base : List Nat)
    (d : List Element) (e : Element) (h : List Nat) (k : Nat) :
    (parse html = none → V1.processHtml parse render tok html base = html) ∧
    (parse html = some d →
      V1.processHtml parse render tok html base
        = render (V1.processHtmlDoc tok base d 0)) ∧
    (e.tag = ub "a" → getAttr e (ub "href") = some h → h.isEmpty = false →
      pfx (ub "javascript:") h = false → pfx (ub "#") h = false →
      pfx (ub "mailto:") h = false → V1.isValidUrl (urlResolve base h) = true →
      tok k (urlResolve base h) = none → V1.anchorStep tok base e k = (e, k + 1)) ∧
    (e.tag = ub "form" → getAttr e (ub "action") = some h → h.isEmpty = false →
      pfx (ub "#") h = false → V1.isValidUrl (urlResolve base h) = true →
      tok k (urlResolve base h) = none → V1.formStep tok base e k = (e, k + 1)) ∧
    (e.tag = ub "img" → getAttr e (ub "src") = some h → h.isEmpty = false →
      pfx (ub "data:") h = false → V1.isValidUrl (urlResolve base h) = true →
      tok k (urlResolve base h) = none → V1.imgStep tok base e k = (e, k + 1)) := by
  refine ⟨?_, ?_, ?_, ?_, ?_⟩
  · intro hp
    simp [V1.processHtml, hp]
  · intro hp
    simp [V1.processHtml, hp]
  · intro htag hattr hne hjs hhash hmailto hval htok
    exact V1.anchorStep_tokfail tok base e h k htag hattr hne hjs hhash hmailto hval htok
  · intro htag hattr hne hhash hval htok
    exact V1.formStep_tokfail tok base e h k htag hattr hne hhash hval htok
  · intro htag hattr hne hdata hval htok
    exact V1.imgStep_tokfail tok base e h k htag hattr hne hdata hval htok

theorem C9_rewrite_totality_witness :
    V1.processHtml (fun _ => none) (fun _ => []) (fun _ _ => none)
        (ub "<html deeply broken") (ub "https://example.com/")
      = ub "<html deeply broken" ∧
    V1.anchorStep (fun _ _ => none) (ub "https://example.com/")
        ⟨ub "a", [(ub "href", ub "x.html")]⟩ 0
      = (⟨ub "a", [(ub "href", ub "x.html")]⟩, 1) :=
  ⟨(C9_rewrite_totality (fun _ => none) (fun _ => []) (fun _ _ => none)
      (ub "<html deeply broken") (ub "https://example.com/") []
      ⟨ub "a", [(ub "href", ub "x.html")]⟩ (ub "x.html") 0).1 rfl,
   (C9_rewrite_totality (fun _ => none) (fun _ => []) (fun _ _ => none)
      (ub "<html deeply broken") (ub "https://example.com/") []
      ⟨ub "a", [(ub "href", ub "x.html")]⟩ (ub "x.html") 0).2.2.1 rfl rfl
      (by decide) (by decide) (by decide) (by decide) (by decide) rfl⟩

theorem trimWs_mem {q : List Nat} : ∀ b ∈ trimWs q, b ∈ q := by
  intro b hb
  unfold trimWs at hb
  rw [List.mem_reverse] at hb
  have h1 := (List.dropWhile_sublist isWsB).subset hb
  rw [List.mem_reverse] at h1
  exact (List.dropWhile_sublist isWsB).subset h1

theorem encodeUriComponent_lt {u : List Nat} (h : ∀ b ∈ u, b < 256) :
    ∀ c ∈ encodeUriComponent u, c < 256 := by
  induction u with
  | nil => simp [encodeUriComponent]
  | cons b r ih =>
    intro c hc
    have hb : b < 256 := h b (by simp)
    simp only [encodeUriComponent, List.foldr_cons, List.mem_append] at hc
    rcases hc with hc | hc
    · split at hc
      · simp only [List.mem_singleton] at hc; omega
      · simp only [List.mem_cons, List.mem_singleton, List.not_mem_nil, or_false] at hc
        have d1 : hexDigitUpperB (b / 16) < 256 := by
          unfold hexDigitUpperB; split <;> omega
        have d2 : hexDigitUpperB (b % 16) < 256 := by
          unfold hexDigitUpperB; split <;> omega
        rcases hc with hc | hc | hc <;> omega
    · exact ih (fun x hx => h x (by simp [hx])) c hc

theorem pfx_isEmpty_false {p t : List Nat} (h : pfx p t = true)
    (hp : p.isEmpty = false) : t.isEmpty = false := by
  cases p with
  | nil => simp at hp
  | cons x ps =>
    cases t with
    | nil => simp [pfx] at h
    | cons y ys => rfl

theorem contains_isEmpty_false {t : List Nat} {x : Nat}
    (h : t.contains x = true) : t.isEmpty = false := by
  cases t with
  | nil => simp at h
  | cons y ys => rfl

/-- C8 (amended: holds for the first variant's `/api/search`, lines
732-767, applied to the trimmed query): an input already starting with
`http://` or `https://` is used unchanged; an input containing a dot
and no spaces is promoted to `https://{input}` when it starts with
`www.` and `https://www.{input}` otherwise; any other input becomes a
Google query URL with the query percent-encoded; in every case the
resolved URL is encoded and the response is `{url: "/proxy/" + token}`
with the token decoding back to the resolved URL. -/
theorem C8_search_classification (E : BlockCipher) (iv q : List Nat)
    (hiv : ValidBlock iv) (hq : ∀ b ∈ q, b < 256) :
    ((pfx (ub "http://") (trimWs q) = true ∨ pfx (ub "https://") (trimWs q) = true) →
      V1.isValidUrl (trimWs q) = true →
      V1.searchRoute E iv q
        = .ok (ub "/proxy/" ++ V1.encryptUrl E iv (trimWs q)) ∧
      V1.decryptUrl E (V1.encryptUrl E iv (trimWs q)) = some (trimWs q)) ∧
    (pfx (ub "http://") (trimWs q) = false → pfx (ub "https://") (trimWs q) = false →
      (trimWs q).contains 46 = true → (trimWs q).contains 32 = false →
      V1.isValidUrl (if pfx (ub "www.") (trimWs q) then ub "https://" ++ trimWs q
        else ub "https://www." ++ trimWs q) = true →
      V1.searchRoute E iv q
        = .ok (ub "/proxy/" ++ V1.encryptUrl E iv
            (if pfx (ub "www.") (trimWs q) then ub "https://" ++ trimWs q
             else ub "https://www." ++ trimWs q)) ∧
      V1.decryptUrl E (V1.encryptUrl E iv
          (if pfx (ub "www.") (trimWs q) then ub "https://" ++ trimWs q
           else ub "https://www." ++ trimWs q))
        = some (if pfx (ub "www.") (trimWs q) then ub "https://" ++ trimWs q
            else ub "https://www." ++ trimWs q)) ∧
    (pfx (ub "http://") (trimWs q) = false → pfx (ub "https://") (trimWs q) = false →
      ((trimWs q).contains 46 && !(trimWs q).contains 32) = false →
      (trimWs q).isEmpty = false →
      V1.isValidUrl (ub "https://www.google.com/search?q="
        ++ encodeUriComponent (trimWs q)) = true →
      V1.searchRoute E iv q
        = .ok (ub "/proxy/" ++ V1.encryptUrl E iv
            (ub "https://www.google.com/search?q=" ++ encodeUriComponent (trimWs q))) ∧
      V1.decryptUrl E (V1.encryptUrl E iv
          (ub "https://www.google.com/search?q=" ++ encodeUriComponent (trimWs q)))
        = some (ub "https://www.google.com/search?q="
            ++ encodeUriComponent (trimWs q))) := by
  have htb : ∀ b ∈ trimWs q, b < 256 := fun b hb => hq b (trimWs_mem b hb)
  refine ⟨?_, ?_, ?_⟩
  · intro hp hval
    have hne : (trimWs q).isEmpty = false := by
      rcases hp with hp | hp
      · exact pfx_isEmpty_false hp (by decide)
      · exact pfx_isEmpty_false hp (by decide)
    have hcls : V1.searchUrlFor (trimWs q) = trimWs q := by
      unfold V1.searchUrlFor
      rcases hp with hp | hp <;> simp [hp]
    refine ⟨?_, V1.decryptUrl_encryptUrl E hiv htb⟩
    simp [V1.searchRoute, hne, hcls, hval]
  · intro hp1 hp2 hdot hspace hval
    have hne : (trimWs q).isEmpty = false := contains_isEmpty_false hdot
    have hcls : V1.searchUrlFor (trimWs q)
        = (if pfx (ub "www.") (trimWs q) then ub "https://" ++ trimWs q
           else ub "https://www." ++ trimWs q) := by
      unfold V1.searchUrlFor
      rw [if_neg (by rw [hp1, hp2]; simp), if_pos (by rw [hdot, hspace]; rfl)]
    have hbytes : ∀ b ∈ (if pfx (ub "www.") (trimWs q) then ub "https://" ++ trimWs q
        else ub "https://www." ++ trimWs q), b < 256 := by
      split <;>
        · intro b hb
          rcases List.mem_append.1 hb with hb | hb
          · exact ub_lt _ b hb
          · exact htb b hb
    refine ⟨?_, V1.decryptUrl_encryptUrl E hiv hbytes⟩
    simp only [V1.searchRoute, hne, Bool.false_eq_true, if_false, hcls, hval,
      Bool.not_true, if_true]
  · intro hp1 hp2 hdom hne hval
    have hcls : V1.searchUrlFor (trimWs q)
        = ub "https://www.google.com/search?q=" ++ encodeUriComponent (trimWs q) := by
      unfold V1.searchUrlFor
      rw [if_neg (by rw [hp1, hp2]; simp), if_neg (by rw [hdom]; simp)]
    have hbytes : ∀ b ∈ ub "https://www.google.com/search?q="
        ++ encodeUriComponent (trimWs q), b < 256 := by
      intro b hb
      rcases List.mem_append.1 hb with hb | hb
      · exact ub_lt _ b hb
      · exact encodeUriComponent_lt htb b hb
    refine ⟨?_, V1.decryptUrl_encryptUrl E hiv hbytes⟩
    simp only [V1.searchRoute, hne, Bool.false_eq_true, if_false, hcls, hval,
      Bool.not_true, if_true]

theorem C8_search_classification_witness :
    V1.searchRoute idCipher (List.replicate 16 0) (ub "openai.com")
      = .ok (ub "/proxy/" ++
          V1.encryptUrl idCipher (List.replicate 16 0) (ub "https://www.openai.com")) ∧
    V1.decryptUrl idCipher
        (V1.encryptUrl idCipher (List.replicate 16 0) (ub "https://www.openai.com"))
      = some (ub "https://www.openai.com") :=
  (C8_search_classification idCipher (List.replicate 16 0) (ub "openai.com")
      (by decide) (by decide)).2.1
    (by decide) (by decide) (by decide) (by decide) (by decide)

/-- C8 counterexample against the second variant's `/api/search`
(lines 1395-1415, also cited by the claim): it has no `www.`
promotion, so the input `openai.com` resolves to `https://openai.com`
rather than the claimed `https://www.openai.com`. -/
theorem C8_v2_no_www :
    V2.searchRoute idCipher (List.replicate 16 0) (ub "openai.com")
      = .ok (ub "/proxy/" ++
          V2.encryptUrl idCipher (List.replicate 16 0) (ub "https://openai.com")) ∧
    V2.decryptUrl idCipher (List.replicate 16 0)
        (V2.encryptUrl idCipher (List.replicate 16 0) (ub "https://openai.com"))
      = some (ub "https://openai.com") ∧
    ub "https://openai.com" ≠ ub "https://www.openai.com" := by
  refine ⟨by decide, by decide, by decide⟩

theorem takeWhile_append_stop (p : Nat → Bool) {a : List Nat} (x : Nat) (b : List Nat)
    (ha : ∀ c ∈ a, p c = true) (hx : p x = false) :
    (a ++ x :: b).takeWhile p = a := by
  induction a with
  | nil => simp [List.takeWhile, hx]
  | cons y ys ih =>
    simp only [List.cons_append, List.takeWhile_cons, ha y (by simp)]
    rw [ih (fun c hc => ha c (by simp [hc]))]
    simp

theorem dropWhile_append_stop (p : Nat → Bool) {a : List Nat} (x : Nat) (b : List Nat)
    (ha : ∀ c ∈ a, p c = true) (hx : p x = false) :
    (a ++ x :: b).dropWhile p = x :: b := by
  induction a with
  | nil => simp [List.dropWhile, hx]
  | cons y ys ih =>
    simp only [List.cons_append, List.dropWhile_cons, ha y (by simp)]
    exact ih (fun c hc => ha c (by simp [hc]))

theorem pfx_mono {p a : List Nat} (b : List Nat) (h : pfx p a = true) :
    pfx p (a ++ b) = true := by
  induction p generalizing a with
  | nil => rfl
  | cons x xs ih =>
    cases a with
    | nil => simp [pfx] at h
    | cons y ys =>
      simp only [pfx, Bool.and_eq_true] at h ⊢
      exact ⟨h.1, ih h.2⟩

theorem pfx_url_decomp {rest : List Nat} (h : pfx (ub "url(") rest = true) :
    ∃ t, rest = 117 :: 114 :: 108 :: 40 :: t := by
  have hu : (ub "url(" : List Nat) = [117, 114, 108, 40] := rfl
  rw [hu] at h
  match rest with
  | [] => simp [pfx] at h
  | [b1] => simp [pfx] at h
  | [b1, b2] => simp [pfx] at h
  | [b1, b2, b3] => simp [pfx] at h
  | b1 :: b2 :: b3 :: b4 :: t =>
    simp only [pfx, Bool.and_eq_true, beq_iff_eq] at h
    obtain ⟨h1, h2, h3, h4, _⟩ := h
    exact ⟨t, by rw [← h1, ← h2, ← h3, ← h4]⟩

/-- No regex match can start inside a `url(`-free chunk, even when the
text continues with a `url(` occurrence right after it. -/
theorem noUrlOpen_no_match {a rest : List Nat} (ha : hasUrlOpen a = false)
    (hrest : pfx (ub "url(") rest = true) (hk : a ≠ []) :
    pfx (ub "url(") (a ++ rest) = false := by
  by_contra hcontra
  rw [Bool.not_eq_false] at hcontra
  rcases Nat.lt_or_ge a.length 4 with hlen | hlen
  · obtain ⟨t, ht⟩ := pfx_url_decomp hrest
    subst ht
    match a, hk with
    | [x], _ =>
      have hu : (ub "url(" : List Nat) = [117, 114, 108, 40] := rfl
      rw [hu] at hcontra
      simp [pfx] at hcontra
    | [x, y], _ =>
      have hu : (ub "url(" : List Nat) = [117, 114, 108, 40] := rfl
      rw [hu] at hcontra
      simp [pfx] at hcontra
    | [x, y, z], _ =>
      have hu : (ub "url(" : List Nat) = [117, 114, 108, 40] := rfl
      rw [hu] at hcontra
      simp [pfx] at hcontra
  · have hpa : pfx (ub "url(") a = true :=
      pfx_of_pfx_append rest hcontra (by rw [show (ub "url(" : List Nat).length = 4 from rfl]; omega)
    cases a with
    | nil => exact hk rfl
    | cons c r =>
      rw [show hasUrlOpen (c :: r) = (pfx (ub "url(") (c :: r) || hasUrlOpen r) from rfl,
        hpa] at ha
      simp at ha

theorem cssMatchClose_pos {q1 : Nat} {cap rest : List Nat} {len : Nat} {cap2 : List Nat}
    (h : cssMatchClose q1 cap rest = some (len, cap2)) : 0 < len := by
  unfold cssMatchClose at h
  repeat' split at h
  all_goals first
    | (injection h with h2; injection h2 with hl hc; omega)
    | exact absurd h (by simp)

theorem cssMatchClose_closeParen (q1 : Nat) (cap post : List Nat) :
    cssMatchClose q1 cap (41 :: post) = some (4 + q1 + cap.length + 1, cap) := rfl

theorem cssMatchAt_pos {s : List Nat} {len : Nat} {cap : List Nat}
    (h : cssMatchAt s = some (len, cap)) : 0 < len := by
  unfold cssMatchAt at h
  dsimp only at h
  repeat' split at h
  all_goals first
    | exact cssMatchClose_pos h
    | exact absurd h (by simp)

/-- The regex matches exactly the unquoted reference at a
`url(inner)` occurrence whose inner text is nonempty, quote- and
paren-free, and not `http`/`data:`-prefixed, capturing `inner` and
consuming through the closing paren. -/
theorem cssMatchAt_occurrence (inner post : List Nat)
    (hne : inner ≠ []) (hall : ∀ b ∈ inner, cssAllowedB b = true)
    (hhttp : pfx (ub "http") inner = false) (hdata : pfx (ub "data:") inner = false) :
    cssMatchAt (ub "url(" ++ (inner ++ 41 :: post))
      = some (4 + 0 + inner.length + 1, inner) := by
  have hdrop : (ub "url(" ++ (inner ++ 41 :: post)).drop 4 = inner ++ 41 :: post := by
    rw [show 4 = (ub "url(" : List Nat).length from rfl, List.drop_left]
  have hhead : ((inner ++ 41 :: post).head? == some 39
      || (inner ++ 41 :: post).head? == some 34) = false := by
    cases inner with
    | nil => exact absurd rfl hne
    | cons i0 irest =>
      have h0 : cssAllowedB i0 = true := hall i0 (by simp)
      have h39 : i0 ≠ 39 := by
        intro hh
        rw [hh] at h0
        simp [cssAllowedB] at h0
      have h34 : i0 ≠ 34 := by
        intro hh
        rw [hh] at h0
        simp [cssAllowedB] at h0
      simp only [List.cons_append, List.head?_cons]
      simp [h39, h34]
  have hlook : (pfx (ub "http") (inner ++ 41 :: post)
      || pfx (ub "data:") (inner ++ 41 :: post)) = false := by
    rw [Bool.or_eq_false_iff]
    constructor
    · by_contra hc
      rw [Bool.not_eq_false] at hc
      rcases Nat.lt_or_ge inner.length (ub "http").length with hl | hl
      · have := mem_of_pfx_overrun hc hl
        revert this
        decide
      · exact absurd (pfx_of_pfx_append _ hc hl) (by simp [hhttp])
    · by_contra hc
      rw [Bool.not_eq_false] at hc
      rcases Nat.lt_or_ge inner.length (ub "data:").length with hl | hl
      · have := mem_of_pfx_overrun hc hl
        revert this
        decide
      · exact absurd (pfx_of_pfx_append _ hc hl) (by simp [hdata])
  have hcap : (inner ++ 41 :: post).takeWhile cssAllowedB = inner :=
    takeWhile_append_stop cssAllowedB 41 post hall rfl
  have hrest : (inner ++ 41 :: post).dropWhile cssAllowedB = 41 :: post :=
    dropWhile_append_stop cssAllowedB 41 post hall rfl
  have hie : inner.isEmpty = false := by
    cases inner with
    | nil => exact absurd rfl hne
    | cons i0 irest => rfl
  unfold cssMatchAt
  rw [if_pos (pfx_append _ _)]
  simp only [hdrop, hhead, Bool.false_eq_true, if_false, List.drop_zero, hlook,
    hcap, hrest, hie]
  exact cssMatchClose_closeParen 0 inner post

/-- A `url(inner)` occurrence whose inner reference already starts
with `http` or `data:` is rejected by the negative lookahead. -/
theorem cssMatchAt_skip (inner post : List Nat)
    (hne : inner ≠ []) (hall : ∀ b ∈ inner, cssAllowedB b = true)
    (hskip : pfx (ub "http") inner = true ∨ pfx (ub "data:") inner = true) :
    cssMatchAt (ub "url(" ++ (inner ++ 41 :: post)) = none := by
  have hdrop : (ub "url(" ++ (inner ++ 41 :: post)).drop 4 = inner ++ 41 :: post := by
    rw [show 4 = (ub "url(" : List Nat).length from rfl, List.drop_left]
  have hhead : ((inner ++ 41 :: post).head? == some 39
      || (inner ++ 41 :: post).head? == some 34) = false := by
    cases inner with
    | nil => exact absurd rfl hne
    | cons i0 irest =>
      have h0 : cssAllowedB i0 = true := hall i0 (by simp)
      have h39 : i0 ≠ 39 := by
        intro hh
        rw [hh] at h0
        simp [cssAllowedB] at h0
      have h34 : i0 ≠ 34 := by
        intro hh
        rw [hh] at h0
        simp [cssAllowedB] at h0
      simp only [List.cons_append, List.head?_cons]
      simp [h39, h34]
  have hlook : (pfx (ub "http") (inner ++ 41 :: post)
      || pfx (ub "data:") (inner ++ 41 :: post)) = true := by
    rcases hskip with hp | hp
    · rw [pfx_mono _ hp]
      simp
    · rw [pfx_mono _ hp]
      simp
  unfold cssMatchAt
  rw [if_pos (pfx_append _ _)]
  simp only [hdrop, hhead, Bool.false_eq_true, if_false, List.drop_zero, hlook, if_true]

theorem cssMatchAt_none_of_no_pfx {s : List Nat}
    (h : pfx (ub "url(") s = false) : cssMatchAt s = none := by
  simp [cssMatchAt, h]

theorem cssScanF_succ_cons (tok : Nat → List Nat → Option (List Nat))
    (target : List Nat) (f k : Nat) (c : Nat) (r : List Nat) :
    cssScanF tok target (f + 1) k (c :: r)
      = match cssMatchAt (c :: r) with
        | some (len, cap) =>
          (match tok k (urlResolve (substrToLastSlash target ++ [47]) cap) with
            | some t => ub "url(" ++ 39 :: (ub "/asset/" ++ t ++ [39, 41])
            | none => (c :: r).take len) ++
          cssScanF tok target f (k + 1) ((c :: r).drop len)
        | none => c :: cssScanF tok target f k r := rfl

theorem cssScanF_fuel (tok : Nat → List Nat → Option (List Nat)) (target : List Nat) :
    ∀ (f k : Nat) (s : List Nat), s.length ≤ f →
      cssScanF tok target f k s = cssScanF tok target s.length k s := by
  intro f
  induction f using Nat.strong_induction_on with
  | _ f ih =>
    intro k s hl
    cases f with
    | zero =>
      have hnil : s = [] := List.length_eq_zero.1 (Nat.le_zero.1 hl)
      subst hnil
      rfl
    | succ f2 =>
      cases s with
      | nil => rfl
      | cons c r =>
        simp only [List.length_cons] at hl
        rw [cssScanF_succ_cons, show (c :: r).length = r.length + 1 from rfl,
          cssScanF_succ_cons]
        cases hm : cssMatchAt (c :: r) with
        | none =>
          dsimp only
          rw [ih f2 (by omega) k r (by omega), ih r.length (by omega) k r (le_refl _)]
        | some p =>
          obtain ⟨len, cap⟩ := p
          dsimp only
          have hpos := cssMatchAt_pos hm
          have hdl : ((c :: r).drop len).length = r.length + 1 - len := by simp
          rw [ih f2 (by omega) (k + 1) ((c :: r).drop len) (by rw [hdl]; omega),
            ih r.length (by omega) (k + 1) ((c :: r).drop len) (by rw [hdl]; omega)]

theorem cssProcess_eq_cssScan (tok : Nat → List Nat → Option (List Nat))
    (target css : List Nat) : cssProcess tok target css = cssScan tok target 0 css := rfl

theorem cssScan_nil (tok : Nat → List Nat → Option (List Nat)) (target : List Nat)
    (k : Nat) : cssScan tok target k [] = [] := rfl

theorem cssScan_cons_nomatch {tok : Nat → List Nat → Option (List Nat)}
    {target : List Nat} {k : Nat} {c : Nat} {r : List Nat}
    (h : cssMatchAt (c :: r) = none) :
    cssScan tok target k (c :: r) = c :: cssScan tok target k r := by
  unfold cssScan
  rw [show (c :: r).length = r.length + 1 from rfl, cssScanF_succ_cons, h]

theorem cssScan_cons_match {tok : Nat → List Nat → Option (List Nat)}
    {target : List Nat} {k : Nat} {c len : Nat} {r cap : List Nat}
    (h : cssMatchAt (c :: r) = some (len, cap)) :
    cssScan tok target k (c :: r)
      = (match tok k (urlResolve (substrToLastSlash target ++ [47]) cap) with
          | some t => ub "url(" ++ 39 :: (ub "/asset/" ++ t ++ [39, 41])
          | none => (c :: r).take len) ++
        cssScan tok target (k + 1) ((c :: r).drop len) := by
  unfold cssScan
  rw [show (c :: r).length = r.length + 1 from rfl, cssScanF_succ_cons, h]
  dsimp only
  congr 1
  have hpos := cssMatchAt_pos h
  have hdl : ((c :: r).drop len).length = r.length + 1 - len := by simp
  exact cssScanF_fuel tok target r.length (k + 1) _ (by rw [hdl]; omega)

theorem cssScan_match {tok : Nat → List Nat → Option (List Nat)}
    {target : List Nat} {k len : Nat} {s cap : List Nat}
    (h : cssMatchAt s = some (len, cap)) (hs : s ≠ []) :
    cssScan tok target k s
      = (match tok k (urlResolve (substrToLastSlash target ++ [47]) cap) with
          | some t => ub "url(" ++ 39 :: (ub "/asset/" ++ t ++ [39, 41])
          | none => s.take len) ++
        cssScan tok target (k + 1) (s.drop len) := by
  cases s with
  | nil => exact absurd rfl hs
  | cons c r => exact cssScan_cons_match h

/-- The scanner copies a `url(`-free chunk verbatim when the remainder
begins with a `url(` occurrence. -/
theorem cssScan_append_noUrl (tok : Nat → List Nat → Option (List Nat))
    (target : List Nat) {pre rest : List Nat} (k : Nat)
    (hpre : hasUrlOpen pre = false) (hrest : pfx (ub "url(") rest = true) :
    cssScan tok target k (pre ++ rest) = pre ++ cssScan tok target k rest := by
  induction pre with
  | nil => rfl
  | cons c p ih =>
    have hsplit : (pfx (ub "url(") (c :: p) || hasUrlOpen p) = false := hpre
    rw [Bool.or_eq_false_iff] at hsplit
    have hnm : cssMatchAt (c :: (p ++ rest)) = none := by
      apply cssMatchAt_none_of_no_pfx
      exact noUrlOpen_no_match hpre hrest (by simp)
    rw [show (c :: p) ++ rest = c :: (p ++ rest) from rfl,
      cssScan_cons_nomatch hnm, ih hsplit.2]
    rfl

/-- C6: the CSS rewrite transforms a `url(inner)` reference whose
inner value does not already start with `http` or `data:` by resolving
it against the stylesheet's base URL truncated to the last path
segment boundary and rewriting it to `url('/asset/{token}')`, with the
token decoding back to the resolved absolute URL; a reference whose
per-match callback fails is left verbatim, and a reference already
starting with `http` or `data:` is not matched at all.  The text
before the occurrence (free of `url(`) is copied verbatim and scanning
continues after the match. -/
theorem C6_css_rewrite (E : BlockCipher) (ivs : Nat → List Nat)
    (tok : Nat → List Nat → Option (List Nat))
    (target pre inner inner2 post : List Nat) (k : Nat)
    (hpre : hasUrlOpen pre = false)
    (hne : inner ≠ []) (hall : ∀ b ∈ inner, cssAllowedB b = true)
    (hhttp : pfx (ub "http") inner = false)
    (hdata : pfx (ub "data:") inner = false) :
    (cssScan (fun k2 u => some (V1.encryptUrl E (ivs k2) u)) target k
        (pre ++ (ub "url(" ++ (inner ++ 41 :: post)))
      = pre ++ ((ub "url(" ++ 39 :: (ub "/asset/"
            ++ V1.encryptUrl E (ivs k) (urlResolve (substrToLastSlash target ++ [47]) inner)
            ++ [39, 41]))
          ++ cssScan (fun k2 u => some (V1.encryptUrl E (ivs k2) u)) target (k + 1) post)) ∧
    (ValidBlock (ivs k) →
      (∀ b ∈ urlResolve (substrToLastSlash target ++ [47]) inner, b < 256) →
      V1.decryptUrl E (V1.encryptUrl E (ivs k)
          (urlResolve (substrToLastSlash target ++ [47]) inner))
        = some (urlResolve (substrToLastSlash target ++ [47]) inner)) ∧
    (tok k (urlResolve (substrToLastSlash target ++ [47]) inner) = none →
      cssScan tok target k (pre ++ (ub "url(" ++ (inner ++ 41 :: post)))
        = pre ++ ((ub "url(" ++ inner ++ [41]) ++ cssScan tok target (k + 1) post)) ∧
    (inner2 ≠ [] → (∀ b ∈ inner2, cssAllowedB b = true) →
      (pfx (ub "http") inner2 = true ∨ pfx (ub "data:") inner2 = true) →
      cssMatchAt (ub "url(" ++ (inner2 ++ 41 :: post)) = none) := by
  have hocc := cssMatchAt_occurrence inner post hne hall hhttp hdata
  have hshape : ub "url(" ++ (inner ++ 41 :: post)
      = (ub "url(" ++ inner ++ [41]) ++ post := by simp
  have hmlen : (ub "url(" ++ inner ++ [41]).length = 4 + 0 + inner.length + 1 := by
    simp [show (ub "url(" : List Nat).length = 4 from rfl]
    omega
  have hdropm : (ub "url(" ++ (inner ++ 41 :: post)).drop (4 + 0 + inner.length + 1)
      = post := by
    rw [hshape, ← hmlen, List.drop_left]
  have htakem : (ub "url(" ++ (inner ++ 41 :: post)).take (4 + 0 + inner.length + 1)
      = ub "url(" ++ inner ++ [41] := by
    rw [hshape, ← hmlen, List.take_left]
  refine ⟨?_, ?_, ?_, ?_⟩
  · rw [cssScan_append_noUrl _ _ k hpre (pfx_append _ _),
      cssScan_match hocc (by rw [show (ub "url(" : List Nat) = [117, 114, 108, 40] from rfl]; simp)]
    dsimp only
    rw [hdropm]
  · intro hiv hb
    exact V1.decryptUrl_encryptUrl E hiv hb
  · intro htok
    rw [cssScan_append_noUrl _ _ k hpre (pfx_append _ _),
      cssScan_match hocc (by rw [show (ub "url(" : List Nat) = [117, 114, 108, 40] from rfl]; simp),
      htok]
    dsimp only
    rw [hdropm, htakem]
  · intro hne2 hall2 hskip2
    exact cssMatchAt_skip inner2 post hne2 hall2 hskip2

theorem C6_css_rewrite_witness :
    cssScan (fun _ u => some (V1.encryptUrl idCipher (List.replicate 16 0) u))
        (ub "https://example.com/css/") 0
        (ub "background: " ++ (ub "url(" ++ (ub "../img/x.png" ++ 41 :: [])))
      = ub "background: " ++ ((ub "url(" ++ 39 :: (ub "/asset/"
            ++ V1.encryptUrl idCipher (List.replicate 16 0) (ub "https://example.com/img/x.png")
            ++ [39, 41]))
          ++ cssScan (fun _ u => some (V1.encryptUrl idCipher (List.replicate 16 0) u))
              (ub "https://example.com/css/") 1 []) ∧
    V1.decryptUrl idCipher
        (V1.encryptUrl idCipher (List.replicate 16 0) (ub "https://example.com/img/x.png"))
      = some (ub "https://example.com/img/x.png") :=
  ⟨(C6_css_rewrite idCipher (fun _ => List.replicate 16 0) (fun _ _ => none)
      (ub "https://example.com/css/") (ub "background: ") (ub "../img/x.png")
      (ub "http://x.com/a.png") [] 0
      (by decide) (by decide) (by decide) (by decide) (by decide)).1,
   (C6_css_rewrite idCipher (fun _ => List.replicate 16 0) (fun _ _ => none)
      (ub "https://example.com/css/") (ub "background: ") (ub "../img/x.png")
      (ub "http://x.com/a.png") [] 0
      (by decide) (by decide) (by decide) (by decide) (by decide)).2.1
     (by decide) (by decide)⟩
